/-
  Verification of the analysis engine of the journeyworks repository
  (src/python/analysis-service): per-field statistical analyzers
  (numeric, categorical, temporal), Pearson correlations, anomaly
  detection, DataCard orchestration and the NaN/Infinity sanitization
  pass.

  Conventions of the embedding:
  * Python floats are modelled by exact rationals (ℚ) wherever the code
    performs field operations only; square roots (standard deviation,
    z-scores, Pearson denominators) force real numbers (ℝ), so those
    quantities are exposed as `ℝ` derived from rational data.
  * A pandas Series with missing entries (NaN) is a `List (Option _)`;
    `dropna` is `List.filterMap id`.  The original positional index that
    pandas keeps after `dropna` is modelled by pairing each value with
    its position (`List.enum`).
  * Fallible parsing (pd.to_datetime) is an abstract oracle
    `Value → Option ℤ` (timestamps are integer nanosecond ticks).
  * Python dicts appearing as result maps preserve insertion order and
    are modelled as association lists.
-/
import Mathlib

namespace Journeyworks

/-! ## Numeric analyzer (services/statistical_analyzer.py) -/

/-- Ascending sort of values (`clean_data.quantile` and friends operate on
the sorted order statistics; sorting itself is `sort_values`). -/
def sort_values {α : Type*} [LinearOrder α] (l : List α) : List α :=
  l.insertionSort (· ≤ ·)

/-- `Series.mean()`: arithmetic mean. -/
def list_mean (l : List ℚ) : ℚ := l.sum / l.length

/-- `Series.std()` squared: sample variance with the N−1 denominator
(pandas default `ddof=1`).  The source stores `std = sqrt sample_var`
as a float; it is exposed below as `NumericStats.std`.
(For a single value Python yields NaN from 0/0; in ℚ division by zero
yields 0 — no claim touches that case.) -/
def sample_var (l : List ℚ) : ℚ :=
  (l.map fun x => (x - list_mean l) ^ 2).sum / ((l.length : ℚ) - 1)

/-- Population variance (`ddof=0`), used by `scipy.stats.zscore`. -/
def pop_var (l : List ℚ) : ℚ :=
  (l.map fun x => (x - list_mean l) ^ 2).sum / (l.length : ℚ)

/-- Linear interpolation between order statistics of the sorted list `s` at
fractional position `h`: `s[⌊h⌋] + (h − ⌊h⌋)·(s[⌊h⌋+1] − s[⌊h⌋])`.
This is the `interpolation="linear"` rule of `Series.quantile`.
(When `⌊h⌋+1` runs past the end the second order statistic defaults to the
first, which matches `h` being exactly the last position.) -/
def interp (s : List ℚ) (h : ℚ) : ℚ :=
  let i : ℕ := (⌊h⌋).toNat
  let lo := s.getD i 0
  let hi := s.getD (i + 1) lo
  lo + (h - (i : ℚ)) * (hi - lo)

/-- `Series.quantile(q)` with linear interpolation: position `q·(n−1)`
into the ascending order statistics. -/
def quantile (l : List ℚ) (q : ℚ) : ℚ :=
  interp (sort_values l) (q * ((l.length : ℚ) - 1))

/-- The dict returned by `StatisticalAnalyzer._detect_outliers` (three
shapes) plus the `{"count": 0}` sentinel of `_empty_numeric_stats`. -/
inductive OutlierInfo where
  /-- `{"method":"zscore", "threshold", "count", "indices", "values", "max_zscore"}` -/
  | zscore (threshold : ℚ) (count : ℕ) (indices : List ℕ) (values : List ℚ)
      (max_zscore : ℝ)
  /-- `{"method":"iqr", "threshold", "count", "indices", "values", "bounds"}` -/
  | iqr (threshold : ℚ) (count : ℕ) (indices : List ℕ) (values : List ℚ)
      (lower upper : ℚ)
  /-- `{"method": method, "count": 0}` — unrecognized method fallthrough. -/
  | other (method : String)
  /-- `{"count": 0}` — the `_empty_numeric_stats` sentinel. -/
  | empty

/-- `outliers.get("count", 0)`. -/
def OutlierInfo.count : OutlierInfo → ℕ
  | .zscore _ c _ _ _ => c
  | .iqr _ c _ _ _ _ => c
  | .other _ => 0
  | .empty => 0

/-- `outliers.get("method", "unknown")`. -/
def OutlierInfo.method : OutlierInfo → String
  | .zscore _ _ _ _ _ => "zscore"
  | .iqr _ _ _ _ _ _ => "iqr"
  | .other m => m
  | .empty => "unknown"

/-- `outliers.get("indices", [])`. -/
def OutlierInfo.indices : OutlierInfo → List ℕ
  | .zscore _ _ idx _ _ => idx
  | .iqr _ _ idx _ _ _ => idx
  | .other _ => []
  | .empty => []

/-- `outliers.get("threshold")`. -/
def OutlierInfo.thresholdD : OutlierInfo → Option ℚ
  | .zscore t _ _ _ _ => some t
  | .iqr t _ _ _ _ _ => some t
  | .other _ => none
  | .empty => none

open Classical in
/-- `StatisticalAnalyzer._detect_outliers`.  The series comes with its
original positional index preserved by `dropna` (pairs `(index, value)`).
The z-score branch divides by the population standard deviation, a real
square root, hence the real-valued comparison (and `Classical` decidability
for the filter; nothing evaluates this branch).  When the population
variance is zero scipy produces NaN z-scores and flags nothing; in the ℝ
model division by zero yields 0 and likewise flags nothing for positive
thresholds. -/
noncomputable def detect_outliers (series : List (ℕ × ℚ)) (method : String)
    (threshold : ℚ) : OutlierInfo :=
  if method = "zscore" then
    let vals := series.map (·.2)
    let μ := list_mean vals
    let σ : ℝ := Real.sqrt (pop_var vals)
    let z : ℚ → ℝ := fun x => |(x : ℝ) - (μ : ℝ)| / σ
    let flagged := series.filter fun p => decide ((threshold : ℝ) < z p.2)
    .zscore threshold flagged.length ((flagged.map (·.1)).take 100)
      ((flagged.map (·.2)).take 100) ((vals.map z).foldr max 0)
  else if method = "iqr" then
    let vals := series.map (·.2)
    let q1 := quantile vals (1/4)
    let q3 := quantile vals (3/4)
    let iqr := q3 - q1
    let lower := q1 - threshold * iqr
    let upper := q3 + threshold * iqr
    let flagged := series.filter fun p => p.2 < lower ∨ upper < p.2
    .iqr threshold flagged.length ((flagged.map (·.1)).take 100)
      ((flagged.map (·.2)).take 100) lower upper
  else
    .other method

/-- `NumericStats` (models/data_card.py).  `var` holds the exact sample
variance; the float `std` of the source is its real square root, exposed
as `NumericStats.std`.  (The shape statistics `skewness`/`kurtosis` are
population moments that no verified claim touches and are omitted.) -/
structure NumericStats where
  count : ℕ
  mean : ℚ
  median : ℚ
  var : ℚ
  min : ℚ
  max : ℚ
  q25 : ℚ
  q50 : ℚ
  q75 : ℚ
  outliers : OutlierInfo

/-- The source's `std` field: square root of the sample variance. -/
noncomputable def NumericStats.std (s : NumericStats) : ℝ := Real.sqrt s.var

/-- `StatisticalAnalyzer._empty_numeric_stats`. -/
def empty_numeric_stats : NumericStats :=
  { count := 0, mean := 0, median := 0, var := 0, min := 0, max := 0,
    q25 := 0, q50 := 0, q75 := 0, outliers := .empty }

/-- `StatisticalAnalyzer.analyze_numeric_field`: drop missing values
(keeping original positions), then descriptive statistics plus outlier
detection.  `min`/`max` are the extreme order statistics, read off the
ascending sort. -/
noncomputable def analyze_numeric_field (xs : List (Option ℚ))
    (outlier_method : String) (outlier_threshold : ℚ) : NumericStats :=
  let clean := xs.enum.filterMap fun p => p.2.map fun v => (p.1, v)
  if clean.isEmpty then empty_numeric_stats else
  let vals := clean.map (·.2)
  { count := vals.length
    mean := list_mean vals
    median := quantile vals (1/2)
    var := sample_var vals
    min := (sort_values vals).headD 0
    max := (sort_values vals).getLastD 0
    q25 := quantile vals (1/4)
    q50 := quantile vals (1/2)
    q75 := quantile vals (3/4)
    outliers := detect_outliers clean outlier_method outlier_threshold }

/-! ## Categorical analyzer (services/categorical_analyzer.py) -/

/-- One entry of the `top_n` list: `{"value", "count", "percent"}`. -/
structure TopEntry (α : Type*) where
  value : α
  count : ℕ
  percent : ℚ

/-- `round(x, 2)`: round to two decimal places.  (Python rounds the
nearest double half-to-even; Mathlib's `round` on ℚ rounds half up — the
two agree at every input appearing in the claims, none of which sits on a
half-cent tie.) -/
def round_to2 (q : ℚ) : ℚ := ((round (q * 100) : ℤ) : ℚ) / 100

/-- `Series.value_counts()`: distinct values (first-appearance order)
with their multiplicities, sorted by descending count (stable). -/
def value_counts {α : Type*} [DecidableEq α] (l : List α) : List (α × ℕ) :=
  (l.dedup.map fun v => (v, l.count v)).insertionSort fun a b => b.2 ≤ a.2

/-- `CategoricalStats` (models/data_card.py), generic in the value type
(the source stringifies values for display; the embedding keeps them). -/
structure CategoricalStats (α : Type*) where
  unique_count : ℕ
  top_n : List (TopEntry α)
  concentration_risk : ℚ
  rare_categories : List α

/-- `CategoricalAnalyzer._empty_categorical_stats`. -/
def empty_categorical_stats {α : Type*} : CategoricalStats α :=
  { unique_count := 0, top_n := [], concentration_risk := 0, rare_categories := [] }

/-- `CategoricalAnalyzer.analyze_categorical_field`: drop missing values,
take value counts; top-N with percent of the non-missing total rounded to
2 decimals; concentration risk `Σ (count/total)²` over all distinct
values; rare categories (`count < total·0.01`) capped at 50. -/
def analyze_categorical_field {α : Type*} [DecidableEq α]
    (xs : List (Option α)) (top_n : ℕ) : CategoricalStats α :=
  let clean := xs.filterMap id
  if clean.isEmpty then empty_categorical_stats else
  let vc := value_counts clean
  let total : ℕ := clean.length
  { unique_count := vc.length
    top_n := (vc.take top_n).map fun p =>
      { value := p.1, count := p.2, percent := round_to2 ((p.2 : ℚ) / total * 100) }
    concentration_risk := (vc.map fun p => ((p.2 : ℚ) / (total : ℚ)) ^ 2).sum
    rare_categories :=
      ((vc.filter fun p => (p.2 : ℚ) < (total : ℚ) * (1/100)).map (·.1)).take 50 }

/-! ## Temporal analyzer (services/temporal_analyzer.py)

Timestamps are integer nanosecond ticks (the unit of `pd.Timestamp`). -/

/-- `timedelta(days=1)` in nanosecond ticks. -/
def one_day : ℤ := 86400000000000

/-- One hour in nanosecond ticks. -/
def one_hour : ℤ := 3600000000000

/-- One minute in nanosecond ticks. -/
def one_minute : ℤ := 60000000000

/-- The dict returned by `TemporalAnalyzer._analyze_gaps`: `count`,
`max_gap_days`, and — present only when at least one gap was flagged —
`avg_gap_days` (`round(gaps.mean().days, 2)`: the whole-day part of
the mean gap, which `round` then leaves unchanged). -/
structure GapsResult where
  count : ℕ
  max_gap_days : ℤ
  avg_gap_days : Option ℤ
  deriving DecidableEq

/-- `TemporalAnalyzer._analyze_gaps`: differences of consecutive entries of
the (ascending-sorted) series; gaps are differences `> timedelta(days=1)`.
`Timedelta.days` is the whole-day part (floor; all gaps here are
positive).  The mean of the gaps is exact in ℚ here where pandas keeps
nanoseconds — the two agree except within one nanosecond of a whole-day
boundary, which no claim exercises. -/
def analyze_gaps (sorted_dates : List ℤ) : GapsResult :=
  if sorted_dates.length < 2 then { count := 0, max_gap_days := 0, avg_gap_days := none }
  else
    let diffs := (sorted_dates.zip sorted_dates.tail).map fun p => p.2 - p.1
    let gaps := diffs.filter fun d => one_day < d
    if gaps.isEmpty then { count := 0, max_gap_days := 0, avg_gap_days := none }
    else
      { count := gaps.length
        max_gap_days := gaps.max?.getD 0 / one_day
        avg_gap_days := some ⌊((gaps.sum : ℚ) / (gaps.length : ℚ)) / (one_day : ℚ)⌋ }

/-- The `distribution` dict of `TemporalAnalyzer._analyze_distribution`:
hour-of-day buckets, or calendar-date buckets (dates as whole days since
the epoch). -/
inductive TemporalDistribution where
  | hourly (data : List (ℤ × ℕ))
  | daily (data : List (ℤ × ℕ))
  deriving DecidableEq

/-- `Timestamp.hour`. -/
def hour_of (t : ℤ) : ℤ := (Int.fdiv t one_hour) % 24

/-- `Timestamp.minute`. -/
def minute_of (t : ℤ) : ℤ := (Int.fdiv t one_minute) % 60

/-- `Timestamp.date`, as whole days since the epoch. -/
def date_of (t : ℤ) : ℤ := Int.fdiv t one_day

/-- `TemporalAnalyzer._analyze_distribution`: if any timestamp has a
non-zero hour or minute, bucket by hour of day (`value_counts` then
`sort_index`: only the hours that occur, ascending); otherwise bucket by
calendar date, ascending, first 100 distinct dates. -/
def analyze_distribution (dates : List ℤ) : TemporalDistribution :=
  let has_time := dates.any fun t => hour_of t != 0 || minute_of t != 0
  if has_time then
    .hourly (((List.range 24).map fun h =>
      ((h : ℤ), dates.countP fun t => hour_of t == (h : ℤ))).filter fun p => 0 < p.2)
  else
    let ds := dates.map date_of
    .daily ((((ds.dedup).insertionSort (· ≤ ·)).map fun d => (d, ds.count d)).take 100)

/-- `TemporalStats` (models/data_card.py): the `range` dict is flattened
into `range_start`/`range_end`/`range_days` (timestamps kept as ticks
instead of ISO strings). -/
structure TemporalStats where
  range_start : Option ℤ
  range_end : Option ℤ
  range_days : ℤ
  gaps : Option GapsResult
  distribution : Option TemporalDistribution
  deriving DecidableEq

/-- `TemporalAnalyzer._empty_temporal_stats`. -/
def empty_temporal_stats : TemporalStats :=
  { range_start := none, range_end := none, range_days := 0,
    gaps := none, distribution := none }

/-- `TemporalAnalyzer.analyze_temporal_field`: the series arrives already
parsed (`pd.to_datetime(..., errors="coerce")` is the `Option` in each
entry); unparsable/missing entries are dropped. -/
def analyze_temporal_field (parsed : List (Option ℤ)) : TemporalStats :=
  let clean := parsed.filterMap id
  if clean.isEmpty then empty_temporal_stats
  else
    let sorted := sort_values clean
    { range_start := some (sorted.headD 0)
      range_end := some (sorted.getLastD 0)
      range_days := (sorted.getLastD 0 - sorted.headD 0) / one_day
      gaps := some (analyze_gaps sorted)
      distribution := some (analyze_distribution clean) }

/-! ## Correlations (services/statistical_analyzer.py, compute_correlations) -/

/-- One entry of the flat `pearson` map (key `f"{col1}_{col2}"`). -/
structure PearsonEntry where
  field1 : String
  field2 : String
  r : ℝ

/-- The key under which the entry is stored in the `pearson` dict. -/
def PearsonEntry.key (e : PearsonEntry) : String := e.field1 ++ "_" ++ e.field2

/-- One entry of the `significant` list. -/
structure SignificantEntry where
  field1 : String
  field2 : String
  r : ℝ
  strength : String

/-- Return value of `compute_correlations`: `{"pearson": ..., "significant": ...}`. -/
structure CorrelationResult where
  pearson : List PearsonEntry
  significant : List SignificantEntry

/-- The `i < j` double loop over columns: every ordered pair with the
first component strictly earlier in the list, in loop order. -/
def upper_pairs {α : Type*} : List α → List (α × α)
  | [] => []
  | x :: xs => (xs.map fun y => (x, y)) ++ upper_pairs xs

/-- Pairwise Pearson coefficient of two columns (pandas `DataFrame.corr`
uses pairwise-complete observations: rows where either entry is missing
are dropped for that pair).  `none` models the float NaN that pandas
yields exactly when either pairwise-complete column is constant (or
fewer than two rows survive), i.e. when a variance term vanishes;
`analyze`'s `pd.isna` check then skips the pair. -/
noncomputable def pearson_r (xs ys : List (Option ℚ)) : Option ℝ :=
  let paired := (xs.zip ys).filterMap fun p =>
    match p with
    | (some a, some b) => some (a, b)
    | _ => none
  let n : ℚ := (paired.length : ℚ)
  let sx := (paired.map (·.1)).sum
  let sy := (paired.map (·.2)).sum
  let sxx := (paired.map fun p => p.1 ^ 2).sum
  let syy := (paired.map fun p => p.2 ^ 2).sum
  let sxy := (paired.map fun p => p.1 * p.2).sum
  let num : ℚ := n * sxy - sx * sy
  let dx : ℚ := n * sxx - sx ^ 2
  let dy : ℚ := n * syy - sy ^ 2
  if dx = 0 ∨ dy = 0 then none
  else some ((num : ℝ) / Real.sqrt ((dx : ℝ) * (dy : ℝ)))

open Classical in
/-- One iteration of the `compute_correlations` double loop: skip a NaN
coefficient, otherwise append to the `pearson` map and — when
`|r| > 0.7` — to `significant` with its strength tag. -/
noncomputable def corr_step (acc : CorrelationResult)
    (pq : (String × List (Option ℚ)) × (String × List (Option ℚ))) : CorrelationResult :=
  match pearson_r pq.1.2 pq.2.2 with
  | none => acc
  | some r =>
    { pearson := acc.pearson ++ [{ field1 := pq.1.1, field2 := pq.2.1, r := r }]
      significant :=
        if 0.7 < |r| then
          acc.significant ++ [{ field1 := pq.1.1, field2 := pq.2.1, r := r,
                                strength := if 0.9 < |r| then "strong" else "moderate" }]
        else acc.significant }

/-- `StatisticalAnalyzer.compute_correlations`.  In the typed embedding
every supplied column is numeric, so `select_dtypes` keeps all of them
and its second `< 2` guard coincides with the first.  The upper-triangle
double loop appends finite coefficients to the `pearson` map and the
`|r| > 0.7` ones to `significant`. -/
noncomputable def compute_correlations
    (fields : List (String × List (Option ℚ))) : CorrelationResult :=
  if fields.length < 2 then { pearson := [], significant := [] }
  else (upper_pairs fields).foldl corr_step { pearson := [], significant := [] }

/-- The `pearson` entry a pair of columns contributes, if its coefficient
is finite. -/
noncomputable def corr_entry
    (pq : (String × List (Option ℚ)) × (String × List (Option ℚ))) : Option PearsonEntry :=
  (pearson_r pq.1.2 pq.2.2).map fun r => { field1 := pq.1.1, field2 := pq.2.1, r := r }

/-- `df[f]` looked up among the named numeric columns. -/
def lookup_column (fields : List (String × List (Option ℚ))) (f : String) :
    List (Option ℚ) :=
  ((fields.find? fun p => p.1 == f).map (·.2)).getD []

/-! ## Anomaly detection (services/datacard_generator.py, _detect_anomalies) -/

/-- The `details` dict of an anomaly (two shapes). -/
inductive AnomalyDetails (α : Type*) where
  /-- `{"method", "threshold", "percent_of_total"}` -/
  | outlier (method : String) (threshold : Option ℚ) (percent_of_total : ℚ)
  /-- `{"hhi", "top_entity", "top_entity_percent"}` -/
  | concentration (hhi : ℚ) (top_entity : Option α) (top_entity_percent : ℚ)
  deriving DecidableEq

/-- `Anomaly` (models/data_card.py).  The human-readable `description`
string is presentation-only and not modelled. -/
structure Anomaly (α : Type*) where
  type : String
  field : String
  severity : String
  affected_records : List ℕ
  details : AnomalyDetails α
  deriving DecidableEq

/-- `DataCardGenerator._detect_anomalies`: one loop appending a
statistical-outlier anomaly per numeric field with positive outlier
count (severity `high` iff `count > record_count·0.1`), then a loop
appending a concentration-risk anomaly per categorical field with
concentration risk above 0.25 (severity `high` iff above 0.5). -/
def detect_anomalies {α : Type*} (record_count : ℕ)
    (numeric_stats : List (String × NumericStats))
    (categorical_stats : List (String × CategoricalStats α)) : List (Anomaly α) :=
  let anomalies := numeric_stats.foldl
    (fun acc p =>
      let oc := p.2.outliers.count
      if 0 < oc then
        acc ++ [{ type := "statistical_outlier", field := p.1,
                  severity := if (record_count : ℚ) * (1/10) < (oc : ℚ) then "high" else "medium",
                  affected_records := p.2.outliers.indices.take 100,
                  details := .outlier p.2.outliers.method p.2.outliers.thresholdD
                    (round_to2 ((oc : ℚ) / (record_count : ℚ) * 100)) }]
      else acc)
    []
  categorical_stats.foldl
    (fun acc p =>
      if 1/4 < p.2.concentration_risk then
        acc ++ [{ type := "concentration_risk", field := p.1,
                  severity := if 1/2 < p.2.concentration_risk then "high" else "medium",
                  affected_records := [],
                  details := .concentration p.2.concentration_risk
                    ((p.2.top_n.head?).map (·.value))
                    (((p.2.top_n.head?).map (·.percent)).getD 0) }]
      else acc)
    anomalies

/-- The anomaly list as §4.6 of the specification words it: the
numeric-outlier anomalies (fields with outlier count > 0, in stats-map
order) followed by the concentration-risk anomalies (fields with
concentration risk > 0.25, in stats-map order), with the stated
severities and an always-empty `affected_records` for the latter. -/
def anomalies_spec {α : Type*} (record_count : ℕ)
    (numeric_stats : List (String × NumericStats))
    (categorical_stats : List (String × CategoricalStats α)) : List (Anomaly α) :=
  ((numeric_stats.filter fun p => decide (0 < p.2.outliers.count)).map fun p =>
    { type := "statistical_outlier", field := p.1,
      severity := if (record_count : ℚ) * (1/10) < (p.2.outliers.count : ℚ)
        then "high" else "medium",
      affected_records := p.2.outliers.indices.take 100,
      details := .outlier p.2.outliers.method p.2.outliers.thresholdD
        (round_to2 ((p.2.outliers.count : ℚ) / (record_count : ℚ) * 100)) }) ++
  ((categorical_stats.filter fun p => decide (1/4 < p.2.concentration_risk)).map fun p =>
    { type := "concentration_risk", field := p.1,
      severity := if 1/2 < p.2.concentration_risk then "high" else "medium",
      affected_records := [],
      details := .concentration p.2.concentration_risk
        ((p.2.top_n.head?).map (·.value))
        (((p.2.top_n.head?).map (·.percent)).getD 0) })

/-! ## DataCard generation (services/datacard_generator.py, app/main.py models)

A record arriving through the JSON request body carries numbers, strings
or missing entries (`None`/absent key); `pd.DataFrame(request.data)`
turns the batch into a table whose columns are the union of the keys in
first-seen order, padding absent keys with NaN. -/

/-- A scalar cell of a record. -/
inductive Value where
  | num (q : ℚ)
  | str (s : String)
  | missing
  deriving DecidableEq

/-- Projection used where a numeric column is consumed. -/
def value_to_num : Value → Option ℚ
  | .num q => some q
  | _ => none

/-- `dropna` boundary for a categorical column: missing cells vanish,
everything else is kept as-is. -/
def value_to_opt : Value → Option Value
  | .missing => none
  | v => some v

/-- A record: a JSON object, keys in insertion order (first binding of a
key wins, as in a Python dict built from JSON). -/
def Record := List (String × Value)

/-- `record[f]` with missing default. -/
def get_value (r : List (String × Value)) (f : String) : Value :=
  (((r.find? fun p => p.1 == f).map (·.2)).getD .missing)

/-- First-occurrence-preserving deduplication (Python dict-key order). -/
def distinct_keys (l : List String) : List String :=
  l.foldl (fun acc k => if k ∈ acc then acc else acc ++ [k]) []

/-- `df.columns`: union of the record keys in first-seen order. -/
def columns (data : List (List (String × Value))) : List String :=
  distinct_keys (data.map (fun r => r.map (·.1))).flatten

/-- `df[f]`: the column of `f` across all records, missing where absent. -/
def column (data : List (List (String × Value))) (f : String) : List Value :=
  data.map fun r => get_value r f

/-- `df.empty`: no rows, or no columns. -/
def df_empty (data : List (List (String × Value))) : Bool :=
  data.isEmpty || (columns data).isEmpty

/-- The non-missing cells of a column (`series.dropna()`). -/
def present (col : List Value) : List Value :=
  col.filterMap value_to_opt

/-! ### Schema inference (services/schema_inference.py) -/

/-- A column holds `object` dtype when any non-missing cell is a string
(numbers-only or all-missing columns get a numeric dtype). -/
def is_object_dtype (col : List Value) : Bool :=
  (present col).any fun v =>
    match v with
    | .str _ => true
    | _ => false

/-- `pd.api.types.is_numeric_dtype`: in this value universe, exactly the
non-`object` columns (an all-missing column is float64, hence numeric). -/
def is_numeric_dtype (col : List Value) : Bool :=
  !is_object_dtype col

/-- `SchemaInferenceService._is_temporal`.  Request data arrives from
JSON, so a column is never already of datetime64 dtype; for `object`
columns, take the first 10 non-missing values and require them all to
parse (`pd.to_datetime` raising on any failure), the parser being the
abstract oracle `parse`. -/
def is_temporal (parse : Value → Option ℤ) (col : List Value) : Bool :=
  if is_object_dtype col then
    let sample := (present col).take 10
    !sample.isEmpty && sample.all fun v => (parse v).isSome
  else false

/-- Field classification lists (`SchemaInfo` of models/data_card.py). -/
structure SchemaInfo where
  numeric : List String
  categorical : List String
  temporal : List String
  deriving DecidableEq

/-- `SchemaInferenceService.infer_schema`: classify every column whose
name does not start with an underscore, temporal first, then numeric
dtype, else categorical. -/
def infer_schema (parse : Value → Option ℤ)
    (data : List (List (String × Value))) : SchemaInfo :=
  let cols := (columns data).filter fun c => !(c.startsWith "_")
  { numeric := cols.filter fun c =>
      !is_temporal parse (column data c) && is_numeric_dtype (column data c)
    categorical := cols.filter fun c =>
      !is_temporal parse (column data c) && !is_numeric_dtype (column data c)
    temporal := cols.filter fun c => is_temporal parse (column data c) }

/-! ### Orchestration -/

/-- `AnalysisOptions` (models/data_card.py). -/
structure AnalysisOptions where
  compute_correlations : Bool
  outlier_method : String
  outlier_threshold : ℚ
  top_n : ℕ
  include_distributions : Bool
  deriving DecidableEq

/-- The pydantic defaults. -/
def default_options : AnalysisOptions :=
  { compute_correlations := true, outlier_method := "zscore",
    outlier_threshold := 3, top_n := 10, include_distributions := true }

/-- `AnalysisRequest` (models/data_card.py). -/
structure AnalysisRequest where
  data : List (List (String × Value))
  schema : Option SchemaInfo
  options : AnalysisOptions

/-- The `summary` dict (`_generate_summary`); the empty-card summary
carries only `record_count`, so every other entry is optional. -/
structure Summary where
  record_count : ℕ
  field_count : Option ℕ
  numeric_fields : Option ℕ
  categorical_fields : Option ℕ
  temporal_fields : Option ℕ
  total_notional : Option ℚ
  time_range : Option (ℤ × ℤ)
  deriving DecidableEq

/-- `DataCardGenerator._generate_summary`. -/
def generate_summary (parse : Value → Option ℤ)
    (data : List (List (String × Value))) (schema : SchemaInfo) : Summary :=
  let cols := columns data
  { record_count := data.length
    field_count := some cols.length
    numeric_fields := some schema.numeric.length
    categorical_fields := some schema.categorical.length
    temporal_fields := some schema.temporal.length
    total_notional :=
      (["amount", "notional", "value"].find? fun f =>
        decide (f ∈ cols) && decide (f ∈ schema.numeric)).map fun f =>
          ((column data f).filterMap value_to_num).sum
    time_range :=
      match schema.temporal.head? with
      | some f =>
        if f ∈ cols then
          let dates := (column data f).filterMap parse
          if dates.isEmpty then none
          else some ((sort_values dates).headD 0, (sort_values dates).getLastD 0)
        else none
      | none => none }

/-- `np.histogram(data, bins=20)`: 21 equal-width edges over the value
range (widened by ±0.5 when the range is degenerate), 20 counts with
half-open bins except the last, which is closed. -/
def histogram20 (vals : List ℚ) : List ℚ × List ℕ :=
  let mn := (sort_values vals).headD 0
  let mx := (sort_values vals).getLastD 0
  let lo := if mn = mx then mn - 1/2 else mn
  let hi := if mn = mx then mx + 1/2 else mx
  let edge : ℕ → ℚ := fun i => lo + (hi - lo) * (i : ℚ) / 20
  ((List.range 21).map edge,
   (List.range 20).map fun i =>
     if i = 19 then vals.countP fun x => decide (edge 19 ≤ x) && decide (x ≤ hi)
     else vals.countP fun x => decide (edge i ≤ x) && decide (x < edge (i + 1)))

/-- `ChartData` (models/data_card.py): the two `data` payload shapes. -/
inductive ChartData where
  | histogram (field : String) (bins : List ℚ) (counts : List ℕ) (mean median : ℚ)
  | bar (field : String) (labels : List Value) (values : List ℕ)
      (percentages : List ℚ)

/-- `DataCardGenerator._generate_chart_data`: histograms for numeric
fields in descending-std order (descending sample variance — the square
root is monotone — ties stable), bar charts for categorical fields with a
non-empty top-N in ascending unique-count order.  The per-field
`try/except` around `np.histogram` fires exactly when the column is not
numeric; such fields are skipped. -/
def generate_chart_data (data : List (List (String × Value)))
    (numeric_stats : List (String × NumericStats))
    (categorical_stats : List (String × CategoricalStats Value)) : List ChartData :=
  let numeric_sorted := numeric_stats.insertionSort fun a b => b.2.var ≤ a.2.var
  let histograms := numeric_sorted.foldl
    (fun acc p =>
      if p.1 ∈ columns data ∧ is_numeric_dtype (column data p.1) then
        let vals := (column data p.1).filterMap value_to_num
        if vals.isEmpty then acc
        else
          acc ++ [.histogram p.1 (histogram20 vals).1 (histogram20 vals).2
            p.2.mean p.2.median]
      else acc)
    []
  let categorical_sorted :=
    categorical_stats.insertionSort fun a b => a.2.unique_count ≤ b.2.unique_count
  categorical_sorted.foldl
    (fun acc p =>
      if p.2.top_n.isEmpty then acc
      else
        acc ++ [.bar p.1 (p.2.top_n.map (·.value)) (p.2.top_n.map (·.count))
          (p.2.top_n.map (·.percent))])
    histograms

/-- `DataCard` (models/data_card.py). -/
structure DataCard where
  summary : Summary
  numeric_stats : List (String × NumericStats)
  categorical_stats : List (String × CategoricalStats Value)
  temporal_stats : List (String × TemporalStats)
  correlations : Option CorrelationResult
  anomalies : List (Anomaly Value)
  chart_data : List ChartData

/-- `DataCardGenerator._empty_data_card`: summary `{record_count: 0}`,
everything else empty. -/
def empty_data_card : DataCard :=
  { summary := { record_count := 0, field_count := none, numeric_fields := none,
                 categorical_fields := none, temporal_fields := none,
                 total_notional := none, time_range := none }
    numeric_stats := []
    categorical_stats := []
    temporal_stats := []
    correlations := none
    anomalies := []
    chart_data := [] }

/-- `DataCardGenerator.generate`: empty DataFrame short-circuits to the
empty card; otherwise resolve the schema (caller-supplied or inferred),
build the summary, run the three per-field analyzers over the fields of
each schema list that exist as columns, compute correlations when enabled
and at least two numeric fields are declared, detect anomalies, and build
chart data when distributions are requested. -/
noncomputable def generate (parse : Value → Option ℤ)
    (request : AnalysisRequest) : DataCard :=
  let data := request.data
  if df_empty data then empty_data_card
  else
    let schema := request.schema.getD (infer_schema parse data)
    let numeric_stats := (schema.numeric.filter fun f => decide (f ∈ columns data)).map
      fun f => (f, analyze_numeric_field ((column data f).map value_to_num)
        request.options.outlier_method request.options.outlier_threshold)
    let categorical_stats :=
      (schema.categorical.filter fun f => decide (f ∈ columns data)).map
        fun f => (f, analyze_categorical_field ((column data f).map value_to_opt)
          request.options.top_n)
    let temporal_stats := (schema.temporal.filter fun f => decide (f ∈ columns data)).map
      fun f => (f, analyze_temporal_field ((column data f).map parse))
    { summary := generate_summary parse data schema
      numeric_stats := numeric_stats
      categorical_stats := categorical_stats
      temporal_stats := temporal_stats
      correlations :=
        if request.options.compute_correlations && decide (2 ≤ schema.numeric.length)
        then some (compute_correlations (schema.numeric.map
          fun f => (f, (column data f).map value_to_num)))
        else none
      anomalies := detect_anomalies data.length numeric_stats categorical_stats
      chart_data :=
        if request.options.include_distributions
        then generate_chart_data data numeric_stats categorical_stats
        else [] }

/-! ## NaN/Infinity sanitization (app/main.py, clean_nan_values)

The JSON-serializable result tree handed to `clean_nan_values` by
`model_dump`: dicts, lists, floats, ints, strings, booleans, `None`.
The nested list/dict children are encoded as the mutual inductives
`JsonItems`/`JsonFields` so that structural recursion and induction stay
elementary. -/

/-- A Python float: either a finite value or one of the three
non-finite ones. -/
inductive FloatVal where
  | finite (q : ℚ)
  | nan
  | inf
  | ninf
  deriving DecidableEq

mutual
/-- A node of the result tree. -/
inductive Json where
  | float (v : FloatVal)
  | int (n : ℤ)
  | str (s : String)
  | bool (b : Bool)
  | null
  | arr (items : JsonItems)
  | obj (fields : JsonFields)

/-- The elements of a list node. -/
inductive JsonItems where
  | nil
  | cons (hd : Json) (tl : JsonItems)

/-- The key/value bindings of a dict node. -/
inductive JsonFields where
  | nil
  | cons (key : String) (val : Json) (tl : JsonFields)
end

mutual
/-- `clean_nan_values`: recurse through dicts and lists; replace a float
that is NaN or ±Infinity by `None`; return everything else unchanged. -/
def clean_nan_values : Json → Json
  | .obj fields => .obj (clean_nan_fields fields)
  | .arr items => .arr (clean_nan_items items)
  | .float (.finite q) => .float (.finite q)
  | .float _ => .null
  | j => j

/-- `clean_nan_values` mapped over list elements. -/
def clean_nan_items : JsonItems → JsonItems
  | .nil => .nil
  | .cons h t => .cons (clean_nan_values h) (clean_nan_items t)

/-- `clean_nan_values` mapped over dict values. -/
def clean_nan_fields : JsonFields → JsonFields
  | .nil => .nil
  | .cons k v t => .cons k (clean_nan_values v) (clean_nan_fields t)
end

mutual
/-- No NaN or ±Infinity anywhere in the tree. -/
def no_nonfinite : Json → Bool
  | .float (.finite _) => true
  | .float _ => false
  | .arr items => no_nonfinite_items items
  | .obj fields => no_nonfinite_fields fields
  | _ => true

/-- All list elements free of non-finite floats. -/
def no_nonfinite_items : JsonItems → Bool
  | .nil => true
  | .cons h t => no_nonfinite h && no_nonfinite_items t

/-- All dict values free of non-finite floats. -/
def no_nonfinite_fields : JsonFields → Bool
  | .nil => true
  | .cons _ v t => no_nonfinite v && no_nonfinite_fields t
end

mutual
/-- The structure of a tree: container shape and dict keys, with every
scalar erased to `null`. -/
def shape_of : Json → Json
  | .arr items => .arr (shape_items items)
  | .obj fields => .obj (shape_fields fields)
  | _ => .null

/-- Shapes of list elements. -/
def shape_items : JsonItems → JsonItems
  | .nil => .nil
  | .cons h t => .cons (shape_of h) (shape_items t)

/-- Shapes of dict values, keys kept. -/
def shape_fields : JsonFields → JsonFields
  | .nil => .nil
  | .cons k v t => .cons k (shape_of v) (shape_fields t)
end

mutual
/-- The sanitization pass as the specification words it, one case per
constructor (the second definition of the refinement claim, to be
compared with `clean_nan_values` above): each of the three non-finite
floats becomes the absence marker `null`; a finite float, an int, a
string, a boolean and `None` are each returned unchanged; a list is
rebuilt element by element and a dict binding by binding with its keys
kept. -/
def clean_nan_values_spec : Json → Json
  | .float (.finite q) => .float (.finite q)
  | .float .nan => .null
  | .float .inf => .null
  | .float .ninf => .null
  | .int n => .int n
  | .str s => .str s
  | .bool b => .bool b
  | .null => .null
  | .arr items => .arr (clean_nan_items_spec items)
  | .obj fields => .obj (clean_nan_fields_spec fields)

/-- Spec-side sanitization of list elements, one by one. -/
def clean_nan_items_spec : JsonItems → JsonItems
  | .nil => .nil
  | .cons h t => .cons (clean_nan_values_spec h) (clean_nan_items_spec t)

/-- Spec-side sanitization of dict values, keys kept. -/
def clean_nan_fields_spec : JsonFields → JsonFields
  | .nil => .nil
  | .cons k v t => .cons k (clean_nan_values_spec v) (clean_nan_fields_spec t)
end

/-! ### Spec-side gap formulation (§4.4: "gap analysis over consecutive
sorted differences") -/

/-- The difference between consecutive entries `i` and `i+1`. -/
def consecutive_diff (s : List ℤ) (i : ℕ) : ℤ := s.getD (i + 1) 0 - s.getD i 0

/-- The indices whose consecutive difference exceeds one day — the gaps
the specification says are flagged. -/
def flagged_gap_indices (s : List ℤ) : List ℕ :=
  (List.range (s.length - 1)).filter fun i => decide (one_day < consecutive_diff s i)

/-! ## General lemmas -/

/-- Dropping the indices after the index-preserving `dropna` leaves
exactly the non-missing values. -/
theorem enumFrom_clean_snd {α : Type*} (xs : List (Option α)) (n : ℕ) :
    ((List.enumFrom n xs).filterMap fun p => p.2.map fun v => (p.1, v)).map (·.2)
      = xs.filterMap id := by
  induction xs generalizing n with
  | nil => rfl
  | cons x xs ih =>
    cases x with
    | none => simpa using ih (n + 1)
    | some v => simpa using ih (n + 1)

/-- `enum` version of `enumFrom_clean_snd`. -/
theorem enum_clean_snd {α : Type*} (xs : List (Option α)) :
    (xs.enum.filterMap fun p => p.2.map fun v => (p.1, v)).map (·.2)
      = xs.filterMap id :=
  enumFrom_clean_snd xs 0

/-- A loop that conditionally appends one element per iteration is
`filter` + `map`. -/
theorem foldl_if_append {α β : Type*} (P : α → Prop) [DecidablePred P] (g : α → β)
    (l : List α) (init : List β) :
    l.foldl (fun acc x => if P x then acc ++ [g x] else acc) init
      = init ++ ((l.filter fun x => decide (P x)).map g) := by
  induction l generalizing init with
  | nil => simp
  | cons x xs ih =>
    by_cases hx : P x
    · simp [hx, ih, List.filter_cons]
    · simp [hx, ih, List.filter_cons]

/-! ## C6: empty dataset short-circuit -/

/-- C6: for an empty input dataset the generator short-circuits to the
minimal DataCard (summary `{record_count: 0}`, all other sections
empty) before any analyzer runs. -/
theorem C6_empty_dataset (parse : Value → Option ℤ) (request : AnalysisRequest)
    (h : df_empty request.data = true) :
    generate parse request = empty_data_card := by
  simp [generate, h]

/-- C6 witness: the empty dataset with default options. -/
theorem C6_empty_dataset_witness :
    generate (fun _ => none) { data := [], schema := none, options := default_options }
      = empty_data_card :=
  C6_empty_dataset _ _ (by rfl)

/-! ## C9: NaN/Infinity sanitization -/

mutual
/-- After cleaning, no non-finite float remains (value part). -/
theorem no_nonfinite_clean (j : Json) : no_nonfinite (clean_nan_values j) = true := by
  cases j with
  | float v => cases v <;> rfl
  | arr items => simpa [clean_nan_values, no_nonfinite] using no_nonfinite_clean_items items
  | obj fields => simpa [clean_nan_values, no_nonfinite] using no_nonfinite_clean_fields fields
  | int n => rfl
  | str s => rfl
  | bool b => rfl
  | null => rfl

/-- After cleaning, no non-finite float remains (list part). -/
theorem no_nonfinite_clean_items (l : JsonItems) :
    no_nonfinite_items (clean_nan_items l) = true := by
  cases l with
  | nil => rfl
  | cons h t =>
    simp [clean_nan_items, no_nonfinite_items, no_nonfinite_clean h,
      no_nonfinite_clean_items t]

/-- After cleaning, no non-finite float remains (dict part). -/
theorem no_nonfinite_clean_fields (l : JsonFields) :
    no_nonfinite_fields (clean_nan_fields l) = true := by
  cases l with
  | nil => rfl
  | cons k v t =>
    simp [clean_nan_fields, no_nonfinite_fields, no_nonfinite_clean v,
      no_nonfinite_clean_fields t]
end

mutual
/-- Cleaning preserves the tree structure (value part). -/
theorem shape_clean (j : Json) : shape_of (clean_nan_values j) = shape_of j := by
  cases j with
  | float v => cases v <;> rfl
  | arr items => simpa [clean_nan_values, shape_of] using shape_clean_items items
  | obj fields => simpa [clean_nan_values, shape_of] using shape_clean_fields fields
  | int n => rfl
  | str s => rfl
  | bool b => rfl
  | null => rfl

/-- Cleaning preserves the tree structure (list part). -/
theorem shape_clean_items (l : JsonItems) :
    shape_items (clean_nan_items l) = shape_items l := by
  cases l with
  | nil => rfl
  | cons h t => simp [clean_nan_items, shape_items, shape_clean h, shape_clean_items t]

/-- Cleaning preserves the tree structure (dict part). -/
theorem shape_clean_fields (l : JsonFields) :
    shape_fields (clean_nan_fields l) = shape_fields l := by
  cases l with
  | nil => rfl
  | cons k v t => simp [clean_nan_fields, shape_fields, shape_clean v, shape_clean_fields t]
end

mutual
/-- A tree without non-finite floats is left unchanged (value part). -/
theorem clean_id (j : Json) (h : no_nonfinite j = true) : clean_nan_values j = j := by
  cases j with
  | float v => cases v with
    | finite q => rfl
    | nan => exact absurd h (by simp [no_nonfinite])
    | inf => exact absurd h (by simp [no_nonfinite])
    | ninf => exact absurd h (by simp [no_nonfinite])
  | arr items =>
    simp only [no_nonfinite] at h
    simp [clean_nan_values, clean_id_items items h]
  | obj fields =>
    simp only [no_nonfinite] at h
    simp [clean_nan_values, clean_id_fields fields h]
  | int n => rfl
  | str s => rfl
  | bool b => rfl
  | null => rfl

/-- A tree without non-finite floats is left unchanged (list part). -/
theorem clean_id_items (l : JsonItems) (h : no_nonfinite_items l = true) :
    clean_nan_items l = l := by
  cases l with
  | nil => rfl
  | cons hd t =>
    simp only [no_nonfinite_items, Bool.and_eq_true] at h
    simp [clean_nan_items, clean_id hd h.1, clean_id_items t h.2]

/-- A tree without non-finite floats is left unchanged (dict part). -/
theorem clean_id_fields (l : JsonFields) (h : no_nonfinite_fields l = true) :
    clean_nan_fields l = l := by
  cases l with
  | nil => rfl
  | cons k v t =>
    simp only [no_nonfinite_fields, Bool.and_eq_true] at h
    simp [clean_nan_fields, clean_id v h.1, clean_id_fields t h.2]
end

mutual
/-- The source sanitizer computes exactly the spec-worded replacement
(value part). -/
theorem clean_eq_spec (j : Json) : clean_nan_values j = clean_nan_values_spec j := by
  cases j with
  | float v => cases v <;> rfl
  | int n => rfl
  | str s => rfl
  | bool b => rfl
  | null => rfl
  | arr items =>
    show Json.arr (clean_nan_items items) = Json.arr (clean_nan_items_spec items)
    rw [clean_eq_spec_items items]
  | obj fields =>
    show Json.obj (clean_nan_fields fields) = Json.obj (clean_nan_fields_spec fields)
    rw [clean_eq_spec_fields fields]

/-- The source sanitizer computes exactly the spec-worded replacement
(list part). -/
theorem clean_eq_spec_items (l : JsonItems) :
    clean_nan_items l = clean_nan_items_spec l := by
  cases l with
  | nil => rfl
  | cons h t =>
    show JsonItems.cons (clean_nan_values h) (clean_nan_items t)
      = JsonItems.cons (clean_nan_values_spec h) (clean_nan_items_spec t)
    rw [clean_eq_spec h, clean_eq_spec_items t]

/-- The source sanitizer computes exactly the spec-worded replacement
(dict part). -/
theorem clean_eq_spec_fields (l : JsonFields) :
    clean_nan_fields l = clean_nan_fields_spec l := by
  cases l with
  | nil => rfl
  | cons k v t =>
    show JsonFields.cons k (clean_nan_values v) (clean_nan_fields t)
      = JsonFields.cons k (clean_nan_values_spec v) (clean_nan_fields_spec t)
    rw [clean_eq_spec v, clean_eq_spec_fields t]
end

/-- C9: on any tree of dicts, lists and scalars, the sanitization pass
equals the specification's recursive replacement — every NaN, +Infinity
and −Infinity at any depth becomes exactly the absence marker (`null`),
every other value (finite floats, ints, strings, booleans, `None`) is
returned unchanged, and every dict and list is rebuilt binding by
binding and element by element with the same keys and arity (the
case-by-case `clean_nan_values_spec`) — and consequently the returned
tree contains no non-finite float anywhere. -/
theorem C9_clean_nan_values (j : Json) :
    clean_nan_values j = clean_nan_values_spec j ∧
    no_nonfinite (clean_nan_values j) = true :=
  ⟨clean_eq_spec j, no_nonfinite_clean j⟩

/-! ## C10: unrecognized outlier method -/

/-- C10: for a non-empty numeric series and any outlier method other than
`"zscore"` and `"iqr"`, the analysis succeeds, the descriptive statistics
are those of a recognized method, and the outliers dict is exactly
`{"method": method, "count": 0}`. -/
theorem C10_unknown_outlier_method (xs : List (Option ℚ)) (m : String) (t : ℚ)
    (hm1 : m ≠ "zscore") (hm2 : m ≠ "iqr") (hne : xs.filterMap id ≠ []) :
    analyze_numeric_field xs m t =
      { analyze_numeric_field xs "zscore" t with outliers := .other m } := by
  have hlen : (xs.enum.filterMap fun p => p.2.map fun v => (p.1, v)).length
      = (xs.filterMap id).length := by
    have := congrArg List.length (enum_clean_snd xs)
    simpa using this
  have hclean : (xs.enum.filterMap fun p => p.2.map fun v => (p.1, v)).isEmpty = false := by
    rw [List.isEmpty_eq_false]
    intro h
    apply hne
    rw [h] at hlen
    exact (List.length_eq_zero.mp hlen.symm)
  simp only [analyze_numeric_field, hclean, Bool.false_eq_true, if_false,
    detect_outliers, hm1, hm2, if_false]

/-- C10 witness at the method string `"median"`. -/
theorem C10_unknown_outlier_method_witness :
    analyze_numeric_field [some 1, some 2] "median" 3 =
      { analyze_numeric_field [some 1, some 2] "zscore" 3 with outliers := .other "median" } :=
  C10_unknown_outlier_method _ _ _ (by decide) (by decide) (by decide)

/-! ## C7: anomaly detection order, severities, affected records -/

/-- C7: anomaly detection emits the statistical-outlier anomalies (one
per numeric field with positive outlier count, severity `high` exactly
when the count exceeds 10% of the record count) in stats-map order,
followed by the concentration-risk anomalies (one per categorical field
with concentration risk above 0.25, severity `high` exactly when the
risk exceeds 0.5, `affected_records` always empty) in stats-map order. -/
theorem C7_detect_anomalies {α : Type*} (record_count : ℕ)
    (numeric_stats : List (String × NumericStats))
    (categorical_stats : List (String × CategoricalStats α)) :
    detect_anomalies record_count numeric_stats categorical_stats
      = anomalies_spec record_count numeric_stats categorical_stats := by
  unfold detect_anomalies anomalies_spec
  rw [foldl_if_append (fun p : String × NumericStats => 0 < p.2.outliers.count),
    foldl_if_append (fun p : String × CategoricalStats α => 1/4 < p.2.concentration_risk)]
  simp

/-! ## C2: the worked numeric example -/

/-- C2: on `[{"amount":10},{"amount":20},{"amount":30}]` the numeric
analysis returns count 3, mean 20, median 20, min 10, max 30,
std 10 (sample standard deviation, N−1 denominator), and quartiles
q25 = 15, q50 = 20, q75 = 25 by linear interpolation. -/
theorem C2_amount_example :
    (analyze_numeric_field [some 10, some 20, some 30] "zscore" 3).count = 3 ∧
    (analyze_numeric_field [some 10, some 20, some 30] "zscore" 3).mean = 20 ∧
    (analyze_numeric_field [some 10, some 20, some 30] "zscore" 3).median = 20 ∧
    (analyze_numeric_field [some 10, some 20, some 30] "zscore" 3).min = 10 ∧
    (analyze_numeric_field [some 10, some 20, some 30] "zscore" 3).max = 30 ∧
    (analyze_numeric_field [some 10, some 20, some 30] "zscore" 3).std = 10 ∧
    (analyze_numeric_field [some 10, some 20, some 30] "zscore" 3).q25 = 15 ∧
    (analyze_numeric_field [some 10, some 20, some 30] "zscore" 3).q50 = 20 ∧
    (analyze_numeric_field [some 10, some 20, some 30] "zscore" 3).q75 = 25 := by
  have hvar : (analyze_numeric_field [some 10, some 20, some 30] "zscore" 3).var = 100 := by
    norm_num [analyze_numeric_field, sample_var, list_mean, List.enum, List.enumFrom,
      List.filterMap]
  refine ⟨?_, ?_, ?_, ?_, ?_, ?_, ?_, ?_, ?_⟩
  · norm_num [analyze_numeric_field, List.enum, List.enumFrom, List.filterMap]
  · norm_num [analyze_numeric_field, list_mean, List.enum, List.enumFrom, List.filterMap]
  · norm_num [analyze_numeric_field, quantile, interp, sort_values, List.insertionSort,
      List.orderedInsert, List.enum, List.enumFrom, List.filterMap]
  · norm_num [analyze_numeric_field, sort_values, List.insertionSort, List.orderedInsert,
      List.enum, List.enumFrom, List.filterMap]
  · norm_num [analyze_numeric_field, sort_values, List.insertionSort, List.orderedInsert,
      List.enum, List.enumFrom, List.filterMap]
  · rw [NumericStats.std, hvar, show ((100 : ℚ) : ℝ) = 10 ^ 2 by norm_num,
      Real.sqrt_sq (by norm_num : (0:ℝ) ≤ 10)]
  · norm_num [analyze_numeric_field, quantile, interp, sort_values, List.insertionSort,
      List.orderedInsert, List.enum, List.enumFrom, List.filterMap]
  · norm_num [analyze_numeric_field, quantile, interp, sort_values, List.insertionSort,
      List.orderedInsert, List.enum, List.enumFrom, List.filterMap]
  · norm_num [analyze_numeric_field, quantile, interp, sort_values, List.insertionSort,
      List.orderedInsert, List.enum, List.enumFrom, List.filterMap]

/-! ## C1/C4: categorical analysis lemmas -/

section Categorical

variable {α : Type*} [DecidableEq α]

/-- A sum over the distinct values of a list as a Finset sum equals the
sum over `dedup`. -/
theorem sum_toFinset_eq_dedup (l : List α) (g : α → ℚ) :
    (∑ v ∈ l.toFinset, g v) = (l.dedup.map g).sum := by
  induction l with
  | nil => simp
  | cons a l ih =>
    by_cases ha : a ∈ l
    · rw [List.toFinset_cons, Finset.insert_eq_self.mpr (List.mem_toFinset.mpr ha),
        List.dedup_cons_of_mem ha, ih]
    · rw [List.toFinset_cons, Finset.sum_insert (by simpa using ha),
        List.dedup_cons_of_not_mem ha, List.map_cons, List.sum_cons, ih]

/-- `value_counts` is a permutation of the distinct values paired with
their counts. -/
theorem value_counts_perm (l : List α) :
    (value_counts l).Perm (l.dedup.map fun v => (v, l.count v)) :=
  List.perm_insertionSort _ _

/-- Any function summed over `value_counts` can be summed over the
distinct values instead. -/
theorem value_counts_map_sum (l : List α) (f : α × ℕ → ℚ) :
    ((value_counts l).map f).sum = (l.dedup.map fun v => f (v, l.count v)).sum := by
  rw [((value_counts_perm l).map f).sum_eq, List.map_map]
  rfl

/-- The counts recorded in `value_counts` sum to the list length. -/
theorem value_counts_counts_sum (l : List α) :
    ((value_counts l).map (·.2)).sum = l.length := by
  rw [((value_counts_perm l).map (·.2)).sum_eq, List.map_map]
  simpa using List.sum_map_count_dedup_eq_length l

/-- The HHI of a non-empty list is positive. -/
theorem hhi_pos {l : List α} (hne : l ≠ []) :
    0 < ((value_counts l).map fun p => ((p.2 : ℚ) / (l.length : ℚ)) ^ 2).sum := by
  rcases List.exists_mem_of_ne_nil _ hne with ⟨v, hv⟩
  have hn : 0 < l.length := List.length_pos.mpr hne
  have hterm : 0 < ((l.count v : ℚ) / (l.length : ℚ)) ^ 2 := by
    have hc : 0 < l.count v := List.count_pos_iff.mpr hv
    positivity
  have hmem : ((l.count v : ℚ) / (l.length : ℚ)) ^ 2
      ∈ (l.dedup.map fun w => ((l.count w : ℚ) / (l.length : ℚ)) ^ 2) :=
    List.mem_map.mpr ⟨v, List.mem_dedup.mpr hv, rfl⟩
  have hnonneg : ∀ x ∈ (l.dedup.map fun w => ((l.count w : ℚ) / (l.length : ℚ)) ^ 2),
      (0:ℚ) ≤ x := by
    intro x hx
    rcases List.mem_map.mp hx with ⟨w, _, rfl⟩
    positivity
  rw [value_counts_map_sum]
  exact lt_of_lt_of_le hterm (List.single_le_sum hnonneg _ hmem)

/-- The proportions recorded over the distinct values sum to one. -/
theorem proportions_sum_eq_one {l : List α} (hne : l ≠ []) :
    (l.dedup.map fun v => (l.count v : ℚ) / (l.length : ℚ)).sum = 1 := by
  have hn : (l.length : ℚ) ≠ 0 := by
    have := List.length_pos.mpr hne
    positivity
  have h1 : (l.dedup.map fun v => (l.count v : ℚ) / (l.length : ℚ))
      = l.dedup.map fun v => (l.count v : ℚ) * (l.length : ℚ)⁻¹ := by
    refine List.map_congr_left fun v _ => ?_
    rw [div_eq_mul_inv]
  rw [h1, List.sum_map_mul_right]
  have h3 : (l.dedup.map fun v => (l.count v : ℚ)).sum = (l.length : ℚ) := by
    have hm : (l.dedup.map fun v => (l.count v : ℚ)) = (l.dedup.map (l.count ·)).map
        (fun n : ℕ => (n : ℚ)) := by rw [List.map_map]; rfl
    rw [hm, ← Nat.cast_list_sum, List.sum_map_count_dedup_eq_length]
  rw [h3, mul_inv_cancel₀ hn]

/-- The HHI of any list is at most one. -/
theorem hhi_le_one {l : List α} (hne : l ≠ []) :
    ((value_counts l).map fun p => ((p.2 : ℚ) / (l.length : ℚ)) ^ 2).sum ≤ 1 := by
  rw [value_counts_map_sum]
  have step : (l.dedup.map fun v => ((l.count v : ℚ) / (l.length : ℚ)) ^ 2).sum
      ≤ (l.dedup.map fun v => (l.count v : ℚ) / (l.length : ℚ)).sum := by
    refine List.sum_le_sum fun v hv => ?_
    have hn : 0 < l.length := List.length_pos.mpr hne
    have hc1 : (l.count v : ℚ) ≤ (l.length : ℚ) := by
      exact_mod_cast List.count_le_length v l
    have hp0 : (0:ℚ) ≤ (l.count v : ℚ) / (l.length : ℚ) := by positivity
    have hp1 : (l.count v : ℚ) / (l.length : ℚ) ≤ 1 := by
      rw [div_le_one (by positivity)]
      exact hc1
    nlinarith
  exact step.trans_eq (proportions_sum_eq_one hne)

end Categorical

/-- C1 counterexample: for the all-missing field, the sentinel sets
`concentration_risk = 0.0`, which does not lie in the interval (0, 1] —
so the claim's "always, including the empty-input case" fails. -/
theorem C1_counterexample :
    (analyze_categorical_field (α := ℕ) [none] 10).concentration_risk = 0 ∧
    ¬ (0 < (analyze_categorical_field (α := ℕ) [none] 10).concentration_risk ∧
       (analyze_categorical_field (α := ℕ) [none] 10).concentration_risk ≤ 1) := by
  norm_num [analyze_categorical_field, empty_categorical_stats, List.filterMap]

/-- C1 (amended): for every categorical field analysis whose input has at
least one non-missing value, `concentration_risk` lies in (0, 1] and
equals the sum of squared value proportions over all distinct non-missing
values (not only the top-N); the empty-input sentinel instead returns
exactly 0.0. -/
theorem C1_concentration_risk {α : Type*} [DecidableEq α]
    (xs : List (Option α)) (top_n : ℕ) (hne : xs.filterMap id ≠ []) :
    0 < (analyze_categorical_field xs top_n).concentration_risk ∧
    (analyze_categorical_field xs top_n).concentration_risk ≤ 1 ∧
    (analyze_categorical_field xs top_n).concentration_risk
      = ∑ v ∈ (xs.filterMap id).toFinset,
          ((List.count v (xs.filterMap id) : ℚ) / ((xs.filterMap id).length : ℚ)) ^ 2 := by
  have hempty : (xs.filterMap id).isEmpty = false := by
    rw [List.isEmpty_eq_false]; exact hne
  have hcr : (analyze_categorical_field xs top_n).concentration_risk
      = ((value_counts (xs.filterMap id)).map
          fun p => ((p.2 : ℚ) / ((xs.filterMap id).length : ℚ)) ^ 2).sum := by
    simp [analyze_categorical_field, hempty]
  refine ⟨?_, ?_, ?_⟩
  · rw [hcr]; exact hhi_pos hne
  · rw [hcr]; exact hhi_le_one hne
  · rw [hcr, value_counts_map_sum, sum_toFinset_eq_dedup]

/-- C1 witness: the 90%/10% split `["A"×9, "B"]` (as tokens 0/1),
HHI = 0.82 ∈ (0, 1]. -/
theorem C1_concentration_risk_witness :
    0 < (analyze_categorical_field ([some 0, some 0, some 0, some 0, some 0,
        some 0, some 0, some 0, some 0, some 1] : List (Option ℕ)) 10).concentration_risk ∧
    (analyze_categorical_field ([some 0, some 0, some 0, some 0, some 0,
        some 0, some 0, some 0, some 0, some 1] : List (Option ℕ)) 10).concentration_risk ≤ 1 ∧
    (analyze_categorical_field ([some 0, some 0, some 0, some 0, some 0,
        some 0, some 0, some 0, some 0, some 1] : List (Option ℕ)) 10).concentration_risk
      = ∑ v ∈ (([some 0, some 0, some 0, some 0, some 0,
          some 0, some 0, some 0, some 0, some 1] : List (Option ℕ)).filterMap id).toFinset,
          ((List.count v (([some 0, some 0, some 0, some 0, some 0,
            some 0, some 0, some 0, some 0, some 1] : List (Option ℕ)).filterMap id) : ℚ)
            / ((([some 0, some 0, some 0, some 0, some 0,
              some 0, some 0, some 0, some 0, some 1] : List (Option ℕ)).filterMap id).length : ℚ)) ^ 2 :=
  C1_concentration_risk _ 10 (by decide)

/-! ## C4: top-N sums -/

/-- C4 counterexample: six equally frequent values, default top-N = 10.
Each percent is `round(100/6, 2) = 16.67`, and the six rounded percents
sum to 100.02 > 100 — the claimed bound fails for the rounded values the
entries actually carry. -/
theorem C4_counterexample :
    ¬ ((analyze_categorical_field
        ([some 1, some 2, some 3, some 4, some 5, some 6] : List (Option ℕ)) 10).top_n.map
          (·.percent)).sum ≤ 100 := by
  have hvc : value_counts (([some 1, some 2, some 3, some 4, some 5, some 6] :
      List (Option ℕ)).filterMap id) = [(1,1),(2,1),(3,1),(4,1),(5,1),(6,1)] := by rfl
  have hclean : (([some 1, some 2, some 3, some 4, some 5, some 6] :
      List (Option ℕ)).filterMap id).isEmpty = false := by rfl
  have hlen : (([some 1, some 2, some 3, some 4, some 5, some 6] :
      List (Option ℕ)).filterMap id).length = 6 := by rfl
  have hr : round_to2 ((50:ℚ) / 3) = 1667/100 := by
    rw [round_to2, round_eq]; norm_num
  norm_num [analyze_categorical_field, hvc, hclean, hlen, hr]

/-- C4 (amended): for non-empty input the top-N counts sum to at most the
non-missing total, and the top-N percents before rounding
(`count/total·100`) sum to at most 100; the stored percents, rounded to 2
decimals, can exceed 100 in total (by less than half a cent per entry). -/
theorem C4_top_n_sums {α : Type*} [DecidableEq α] (xs : List (Option α)) (N : ℕ)
    (hne : xs.filterMap id ≠ []) :
    ((analyze_categorical_field xs N).top_n.map (·.count)).sum
      ≤ (xs.filterMap id).length ∧
    ((analyze_categorical_field xs N).top_n.map
        fun e => (e.count : ℚ) / ((xs.filterMap id).length : ℚ) * 100).sum ≤ 100 := by
  have hempty : (xs.filterMap id).isEmpty = false := by
    rw [List.isEmpty_eq_false]; exact hne
  have hn : 0 < (xs.filterMap id).length := List.length_pos.mpr hne
  have hnq : ((xs.filterMap id).length : ℚ) ≠ 0 := by positivity
  have htop : (analyze_categorical_field xs N).top_n
      = ((value_counts (xs.filterMap id)).take N).map fun p =>
          { value := p.1, count := p.2,
            percent := round_to2 ((p.2 : ℚ) / ((xs.filterMap id).length : ℚ) * 100) } := by
    simp [analyze_categorical_field, hempty]
  have hcounts : ((analyze_categorical_field xs N).top_n.map (·.count))
      = ((value_counts (xs.filterMap id)).take N).map (·.2) := by
    rw [htop, List.map_map]; rfl
  have hsub : List.Sublist (((value_counts (xs.filterMap id)).take N).map (·.2))
      ((value_counts (xs.filterMap id)).map (·.2)) :=
    (List.take_sublist _ _).map _
  have hle : (((value_counts (xs.filterMap id)).take N).map (·.2)).sum
      ≤ ((value_counts (xs.filterMap id)).map (·.2)).sum :=
    hsub.sum_le_sum fun a _ => Nat.zero_le a
  have part1 : ((analyze_categorical_field xs N).top_n.map (·.count)).sum
      ≤ (xs.filterMap id).length := by
    rw [hcounts]
    exact hle.trans_eq (value_counts_counts_sum _)
  refine ⟨part1, ?_⟩
  have hperc : ((analyze_categorical_field xs N).top_n.map
      fun e => (e.count : ℚ) / ((xs.filterMap id).length : ℚ) * 100)
      = ((value_counts (xs.filterMap id)).take N).map
          fun p => (p.2 : ℚ) * (100 / ((xs.filterMap id).length : ℚ)) := by
    rw [htop, List.map_map]
    refine List.map_congr_left fun p _ => ?_
    show (p.2 : ℚ) / ((xs.filterMap id).length : ℚ) * 100
      = (p.2 : ℚ) * (100 / ((xs.filterMap id).length : ℚ))
    field_simp
  rw [hperc, List.sum_map_mul_right]
  have hcast : ((((value_counts (xs.filterMap id)).take N).map fun p => ((p.2 : ℕ) : ℚ)).sum)
      = (((((value_counts (xs.filterMap id)).take N).map (·.2)).sum : ℕ) : ℚ) := by
    rw [Nat.cast_list_sum, List.map_map]; rfl
  have hS : (((value_counts (xs.filterMap id)).take N).map fun p => ((p.2 : ℕ) : ℚ)).sum
      ≤ ((xs.filterMap id).length : ℚ) := by
    rw [hcast]
    exact_mod_cast hle.trans_eq (value_counts_counts_sum _)
  have hr0 : (0:ℚ) ≤ 100 / ((xs.filterMap id).length : ℚ) := by positivity
  calc (((value_counts (xs.filterMap id)).take N).map fun p => ((p.2 : ℕ) : ℚ)).sum
        * (100 / ((xs.filterMap id).length : ℚ))
      ≤ ((xs.filterMap id).length : ℚ) * (100 / ((xs.filterMap id).length : ℚ)) :=
        mul_le_mul_of_nonneg_right hS hr0
    _ = 100 := by field_simp

/-- C4 witness: three values with a 2/3–1/3 split. -/
theorem C4_top_n_sums_witness :
    ((analyze_categorical_field ([some 1, some 1, some 2] : List (Option ℕ)) 10).top_n.map
        (·.count)).sum
      ≤ (([some 1, some 1, some 2] : List (Option ℕ)).filterMap id).length ∧
    ((analyze_categorical_field ([some 1, some 1, some 2] : List (Option ℕ)) 10).top_n.map
        fun e => (e.count : ℚ)
          / ((([some 1, some 1, some 2] : List (Option ℕ)).filterMap id).length : ℚ) * 100).sum
      ≤ 100 :=
  C4_top_n_sums _ 10 (by decide)

/-! ## C3: order invariants of the numeric statistics -/

/-- Index access into a sorted list is monotone. -/
theorem sorted_getD_le {s : List ℚ} (hs : s.Sorted (· ≤ ·)) {i j : ℕ} (hij : i ≤ j)
    (hj : j < s.length) (d : ℚ) : s.getD i d ≤ s.getD j d := by
  rw [List.getD_eq_getElem s d (lt_of_le_of_lt hij hj), List.getD_eq_getElem s d hj]
  have := hs.rel_get_of_le (a := ⟨i, lt_of_le_of_lt hij hj⟩) (b := ⟨j, hj⟩) hij
  simpa using this

/-- For non-negative `h`, the cast of `⌊h⌋.toNat` is `⌊h⌋` itself. -/
theorem toNat_floor_cast {h : ℚ} (h0 : 0 ≤ h) : ((⌊h⌋.toNat : ℕ) : ℚ) = ((⌊h⌋ : ℤ) : ℚ) := by
  exact_mod_cast congrArg (fun z : ℤ => (z : ℚ)) (Int.toNat_of_nonneg (Int.floor_nonneg.mpr h0))

/-- `⌊h⌋.toNat ≤ h` for non-negative `h`. -/
theorem floor_toNat_le {h : ℚ} (h0 : 0 ≤ h) : ((⌊h⌋.toNat : ℕ) : ℚ) ≤ h := by
  rw [toNat_floor_cast h0]
  exact Int.floor_le h

/-- `h < ⌊h⌋.toNat + 1` for non-negative `h`. -/
theorem lt_floor_toNat_add_one {h : ℚ} (h0 : 0 ≤ h) : h < ((⌊h⌋.toNat : ℕ) : ℚ) + 1 := by
  rw [toNat_floor_cast h0]
  exact Int.lt_floor_add_one h

/-- A fractional position within the index range floors to a valid
order-statistic index. -/
theorem floor_toNat_le_pred {s : List ℚ} {h : ℚ} (hne : s ≠ []) (h0 : 0 ≤ h)
    (h1 : h ≤ (s.length : ℚ) - 1) : ⌊h⌋.toNat ≤ s.length - 1 := by
  have hn : 1 ≤ s.length := List.length_pos.mpr hne
  have hq : ((⌊h⌋.toNat : ℕ) : ℚ) ≤ ((s.length - 1 : ℕ) : ℚ) := by
    have h2 := (floor_toNat_le h0).trans h1
    push_cast [hn]
    linarith
  exact_mod_cast hq

/-- `getLastD` is the order statistic at the last index. -/
theorem getLastD_eq_getD (l : List ℚ) (d : ℚ) : l.getLastD d = l.getD (l.length - 1) d := by
  induction l generalizing d with
  | nil => rfl
  | cons a t ih =>
    cases t with
    | nil => rfl
    | cons b t2 =>
      rw [List.getLastD_cons, ih a]
      have h1 : (b :: t2).length - 1 < (b :: t2).length := by simp
      rw [List.getD_eq_getElem _ _ h1,
        List.getD_eq_getElem _ _ (by simp : (a :: b :: t2).length - 1 < (a :: b :: t2).length)]
      simp only [List.length_cons]
      rfl

/-- `headD` is the order statistic at index 0. -/
theorem headD_eq_getD (l : List ℚ) (d : ℚ) : l.headD d = l.getD 0 d := by
  cases l <;> rfl

/-- The linear interpolant at position `h` is at least the order
statistic at `⌊h⌋`. -/
theorem interp_lower {s : List ℚ} {h : ℚ} (hs : s.Sorted (· ≤ ·)) (h0 : 0 ≤ h) :
    s.getD (⌊h⌋.toNat) 0 ≤ interp s h := by
  have hfrac : 0 ≤ h - ((⌊h⌋.toNat : ℕ) : ℚ) := sub_nonneg.mpr (floor_toNat_le h0)
  by_cases hc : ⌊h⌋.toNat + 1 < s.length
  · have hdef : s.getD (⌊h⌋.toNat + 1) (s.getD (⌊h⌋.toNat) 0) = s.getD (⌊h⌋.toNat + 1) 0 := by
      rw [List.getD_eq_getElem _ _ hc, List.getD_eq_getElem _ _ hc]
    have hio : s.getD (⌊h⌋.toNat) 0 ≤ s.getD (⌊h⌋.toNat + 1) 0 :=
      sorted_getD_le hs (Nat.le_succ _) hc 0
    simp only [interp, hdef]
    nlinarith [mul_nonneg hfrac (sub_nonneg.mpr hio)]
  · have hdef : s.getD (⌊h⌋.toNat + 1) (s.getD (⌊h⌋.toNat) 0) = s.getD (⌊h⌋.toNat) 0 :=
      List.getD_eq_default _ _ (not_lt.mp hc)
    simp only [interp, hdef]
    ring_nf
    exact le_refl _

/-- The linear interpolant at position `h` is at most the order
statistic at `⌊h⌋ + 1` when that index is in range. -/
theorem interp_upper {s : List ℚ} {h : ℚ} (hs : s.Sorted (· ≤ ·))
    (h0 : 0 ≤ h) (hc : ⌊h⌋.toNat + 1 < s.length) :
    interp s h ≤ s.getD (⌊h⌋.toNat + 1) 0 := by
  have hfrac1 : h - ((⌊h⌋.toNat : ℕ) : ℚ) ≤ 1 := by
    have := lt_floor_toNat_add_one h0
    linarith
  have hdef : s.getD (⌊h⌋.toNat + 1) (s.getD (⌊h⌋.toNat) 0) = s.getD (⌊h⌋.toNat + 1) 0 := by
    rw [List.getD_eq_getElem _ _ hc, List.getD_eq_getElem _ _ hc]
  have hio : s.getD (⌊h⌋.toNat) 0 ≤ s.getD (⌊h⌋.toNat + 1) 0 :=
    sorted_getD_le hs (Nat.le_succ _) hc 0
  simp only [interp, hdef]
  nlinarith [sub_nonneg.mpr hio]

/-- At the final interval the interpolant collapses to the last order
statistic. -/
theorem interp_at_last {s : List ℚ} {h : ℚ} (hc : s.length ≤ ⌊h⌋.toNat + 1) :
    interp s h = s.getD (⌊h⌋.toNat) 0 := by
  have hdef : s.getD (⌊h⌋.toNat + 1) (s.getD (⌊h⌋.toNat) 0) = s.getD (⌊h⌋.toNat) 0 :=
    List.getD_eq_default _ _ hc
  simp only [interp, hdef]
  ring

/-- The interpolant stays between the extreme order statistics. -/
theorem interp_bounds {s : List ℚ} {h : ℚ} (hs : s.Sorted (· ≤ ·)) (hne : s ≠ [])
    (h0 : 0 ≤ h) (h1 : h ≤ (s.length : ℚ) - 1) :
    s.getD 0 0 ≤ interp s h ∧ interp s h ≤ s.getD (s.length - 1) 0 := by
  have hin : ⌊h⌋.toNat ≤ s.length - 1 := floor_toNat_le_pred hne h0 h1
  have hn : 1 ≤ s.length := List.length_pos.mpr hne
  have hiltn : ⌊h⌋.toNat < s.length := by omega
  constructor
  · exact (sorted_getD_le hs (Nat.zero_le _) hiltn 0).trans (interp_lower hs h0)
  · by_cases hc : ⌊h⌋.toNat + 1 < s.length
    · refine (interp_upper hs h0 hc).trans (sorted_getD_le hs ?_ (by omega) 0)
      omega
    · rw [interp_at_last (not_lt.mp hc)]
      exact sorted_getD_le hs hin (by omega) 0

/-- The interpolant is monotone in the position. -/
theorem interp_mono {s : List ℚ} {h₁ h₂ : ℚ} (hs : s.Sorted (· ≤ ·)) (hne : s ≠ [])
    (h0 : 0 ≤ h₁) (h12 : h₁ ≤ h₂) (h2 : h₂ ≤ (s.length : ℚ) - 1) :
    interp s h₁ ≤ interp s h₂ := by
  have h20 : 0 ≤ h₂ := h0.trans h12
  have hn : 1 ≤ s.length := List.length_pos.mpr hne
  have hi12 : ⌊h₁⌋.toNat ≤ ⌊h₂⌋.toNat := Int.toNat_le_toNat (Int.floor_le_floor h12)
  have hin2 : ⌊h₂⌋.toNat ≤ s.length - 1 := floor_toNat_le_pred hne h20 h2
  rcases lt_or_eq_of_le hi12 with hlt | heq
  · -- the two positions fall in different intervals
    have hc1 : ⌊h₁⌋.toNat + 1 < s.length := by omega
    refine (interp_upper hs h0 hc1).trans ?_
    refine (sorted_getD_le hs (by omega : ⌊h₁⌋.toNat + 1 ≤ ⌊h₂⌋.toNat) (by omega) 0).trans ?_
    exact interp_lower hs h20
  · -- same interval
    by_cases hc : ⌊h₂⌋.toNat + 1 < s.length
    · have hc1 : ⌊h₁⌋.toNat + 1 < s.length := by omega
      have hdef2 : s.getD (⌊h₂⌋.toNat + 1) (s.getD (⌊h₂⌋.toNat) 0)
          = s.getD (⌊h₂⌋.toNat + 1) 0 := by
        rw [List.getD_eq_getElem _ _ hc, List.getD_eq_getElem _ _ hc]
      have hdef1 : s.getD (⌊h₁⌋.toNat + 1) (s.getD (⌊h₁⌋.toNat) 0)
          = s.getD (⌊h₁⌋.toNat + 1) 0 := by
        rw [List.getD_eq_getElem _ _ hc1, List.getD_eq_getElem _ _ hc1]
      have hio : s.getD (⌊h₂⌋.toNat) 0 ≤ s.getD (⌊h₂⌋.toNat + 1) 0 :=
        sorted_getD_le hs (Nat.le_succ _) hc 0
      simp only [interp, hdef1, hdef2, heq]
      nlinarith [mul_nonneg (by linarith : (0:ℚ) ≤ h₂ - h₁) (sub_nonneg.mpr hio)]
    · have hat1 : interp s h₁ = s.getD (⌊h₁⌋.toNat) 0 := interp_at_last (by omega)
      have hat2 : interp s h₂ = s.getD (⌊h₂⌋.toNat) 0 := interp_at_last (not_lt.mp hc)
      rw [hat1, hat2, heq]

/-- The ascending sort is sorted. -/
theorem sorted_sort_values (l : List ℚ) : (sort_values l).Sorted (· ≤ ·) :=
  List.sorted_insertionSort _ l

/-- Sorting preserves the length. -/
theorem length_sort_values (l : List ℚ) : (sort_values l).length = l.length :=
  List.length_insertionSort _ l

/-- Sorting preserves non-emptiness. -/
theorem sort_values_ne_nil {l : List ℚ} (hne : l ≠ []) : sort_values l ≠ [] := by
  intro h
  apply hne
  have := length_sort_values l
  rw [h] at this
  exact List.length_eq_zero.mp this.symm

/-- The quantile function is monotone in the probability. -/
theorem quantile_mono {l : List ℚ} {q₁ q₂ : ℚ} (hne : l ≠ [])
    (h0 : 0 ≤ q₁) (h12 : q₁ ≤ q₂) (h21 : q₂ ≤ 1) :
    quantile l q₁ ≤ quantile l q₂ := by
  have hn : 1 ≤ l.length := List.length_pos.mpr hne
  have hn1 : (0:ℚ) ≤ (l.length : ℚ) - 1 := by
    have : (1:ℚ) ≤ (l.length : ℚ) := by exact_mod_cast hn
    linarith
  refine interp_mono (sorted_sort_values l) (sort_values_ne_nil hne)
    (mul_nonneg h0 hn1) (mul_le_mul_of_nonneg_right h12 hn1) ?_
  rw [length_sort_values]
  nlinarith

/-- Every quantile lies between the extreme order statistics. -/
theorem quantile_bounds {l : List ℚ} {q : ℚ} (hne : l ≠ [])
    (h0 : 0 ≤ q) (h1 : q ≤ 1) :
    (sort_values l).getD 0 0 ≤ quantile l q ∧
    quantile l q ≤ (sort_values l).getD ((sort_values l).length - 1) 0 := by
  have hn : 1 ≤ l.length := List.length_pos.mpr hne
  have hn1 : (0:ℚ) ≤ (l.length : ℚ) - 1 := by
    have : (1:ℚ) ≤ (l.length : ℚ) := by exact_mod_cast hn
    linarith
  refine interp_bounds (sorted_sort_values l) (sort_values_ne_nil hne)
    (mul_nonneg h0 hn1) ?_
  rw [length_sort_values]
  nlinarith

/-- C3: for every numeric field with at least one non-missing value,
`q25 ≤ q50 ≤ q75`, `min ≤ q25`, `q75 ≤ max`, and `count` equals the
number of non-missing values. -/
theorem C3_order_invariants (xs : List (Option ℚ)) (m : String) (t : ℚ)
    (hne : xs.filterMap id ≠ []) :
    (analyze_numeric_field xs m t).q25 ≤ (analyze_numeric_field xs m t).q50 ∧
    (analyze_numeric_field xs m t).q50 ≤ (analyze_numeric_field xs m t).q75 ∧
    (analyze_numeric_field xs m t).min ≤ (analyze_numeric_field xs m t).q25 ∧
    (analyze_numeric_field xs m t).q75 ≤ (analyze_numeric_field xs m t).max ∧
    (analyze_numeric_field xs m t).count = (xs.filterMap id).length := by
  have hlen : (xs.enum.filterMap fun p => p.2.map fun v => (p.1, v)).length
      = (xs.filterMap id).length := by
    have := congrArg List.length (enum_clean_snd xs)
    simpa using this
  have hempty : (xs.enum.filterMap fun p => p.2.map fun v => (p.1, v)).isEmpty = false := by
    rw [List.isEmpty_eq_false]
    intro h
    apply hne
    rw [h] at hlen
    exact List.length_eq_zero.mp hlen.symm
  have hq25 : (analyze_numeric_field xs m t).q25 = quantile (xs.filterMap id) (1/4) := by
    simp only [analyze_numeric_field, hempty, Bool.false_eq_true, if_false]
    rw [enum_clean_snd]
  have hq50 : (analyze_numeric_field xs m t).q50 = quantile (xs.filterMap id) (1/2) := by
    simp only [analyze_numeric_field, hempty, Bool.false_eq_true, if_false]
    rw [enum_clean_snd]
  have hq75 : (analyze_numeric_field xs m t).q75 = quantile (xs.filterMap id) (3/4) := by
    simp only [analyze_numeric_field, hempty, Bool.false_eq_true, if_false]
    rw [enum_clean_snd]
  have hmin : (analyze_numeric_field xs m t).min
      = (sort_values (xs.filterMap id)).getD 0 0 := by
    simp only [analyze_numeric_field, hempty, Bool.false_eq_true, if_false]
    rw [enum_clean_snd, headD_eq_getD]
  have hmax : (analyze_numeric_field xs m t).max
      = (sort_values (xs.filterMap id)).getD ((sort_values (xs.filterMap id)).length - 1) 0 := by
    simp only [analyze_numeric_field, hempty, Bool.false_eq_true, if_false]
    rw [enum_clean_snd, getLastD_eq_getD]
  have hcount : (analyze_numeric_field xs m t).count = (xs.filterMap id).length := by
    simp only [analyze_numeric_field, hempty, Bool.false_eq_true, if_false]
    rw [← hlen]
    simp
  refine ⟨?_, ?_, ?_, ?_, hcount⟩
  · rw [hq25, hq50]
    exact quantile_mono hne (by norm_num) (by norm_num) (by norm_num)
  · rw [hq50, hq75]
    exact quantile_mono hne (by norm_num) (by norm_num) (by norm_num)
  · rw [hmin, hq25]
    exact (quantile_bounds hne (by norm_num) (by norm_num)).1
  · rw [hmax, hq75]
    exact (quantile_bounds hne (by norm_num) (by norm_num)).2

/-- C3 witness: a four-value series. -/
theorem C3_order_invariants_witness :
    (analyze_numeric_field [some 4, some 1, some 3, some 2] "zscore" 3).q25
      ≤ (analyze_numeric_field [some 4, some 1, some 3, some 2] "zscore" 3).q50 ∧
    (analyze_numeric_field [some 4, some 1, some 3, some 2] "zscore" 3).q50
      ≤ (analyze_numeric_field [some 4, some 1, some 3, some 2] "zscore" 3).q75 ∧
    (analyze_numeric_field [some 4, some 1, some 3, some 2] "zscore" 3).min
      ≤ (analyze_numeric_field [some 4, some 1, some 3, some 2] "zscore" 3).q25 ∧
    (analyze_numeric_field [some 4, some 1, some 3, some 2] "zscore" 3).q75
      ≤ (analyze_numeric_field [some 4, some 1, some 3, some 2] "zscore" 3).max ∧
    (analyze_numeric_field [some 4, some 1, some 3, some 2] "zscore" 3).count
      = (([some 4, some 1, some 3, some 2] : List (Option ℚ)).filterMap id).length :=
  C3_order_invariants _ "zscore" 3 (by decide)

/-! ## C5: gap analysis -/

/-- Consecutive differences of a list, as an indexed enumeration. -/
theorem diffs_eq_range_map (s : List ℤ) :
    ((s.zip s.tail).map fun p => p.2 - p.1)
      = (List.range (s.length - 1)).map (consecutive_diff s) := by
  induction s with
  | nil => rfl
  | cons a t ih =>
    cases t with
    | nil => rfl
    | cons b t2 =>
      have hlen : (a :: b :: t2).length - 1 = (b :: t2).length - 1 + 1 := by simp
      rw [hlen, List.range_succ_eq_map]
      simp only [List.map_cons, List.map_map]
      rw [show (a :: b :: t2).tail = b :: t2 from rfl, List.zip_cons_cons, List.map_cons]
      congr 1

/-- `max?` of an integer list is its greatest element. -/
theorem int_max?_eq_some_iff (l : List ℤ) (m : ℤ) :
    l.max? = some m ↔ m ∈ l ∧ ∀ b ∈ l, b ≤ m :=
  have : Std.Antisymm ((· : ℤ) ≤ ·) := ⟨@fun _ _ h h2 => le_antisymm h h2⟩
  List.max?_eq_some_iff (fun a => le_refl a) (fun a b => max_choice a b)
    (fun _ _ _ => max_le_iff)

/-- The behaviour of `_analyze_gaps` against the specification's wording:
the count is the number of flagged consecutive differences (those above
one day), the no-gap result is the `{count: 0, max_gap_days: 0}` dict,
and when gaps exist the maximum and the average are taken over the
flagged gaps only. -/
theorem analyze_gaps_spec (s : List ℤ) :
    (analyze_gaps s).count = (flagged_gap_indices s).length ∧
    (flagged_gap_indices s = [] →
      analyze_gaps s = { count := 0, max_gap_days := 0, avg_gap_days := none }) ∧
    (flagged_gap_indices s ≠ [] →
      (∃ i ∈ flagged_gap_indices s,
        (analyze_gaps s).max_gap_days = consecutive_diff s i / one_day ∧
        ∀ j ∈ flagged_gap_indices s, consecutive_diff s j ≤ consecutive_diff s i) ∧
      (analyze_gaps s).avg_gap_days = some
        ⌊(((flagged_gap_indices s).map fun i => ((consecutive_diff s i : ℤ) : ℚ)).sum
            / ((flagged_gap_indices s).length : ℚ)) / ((one_day : ℤ) : ℚ)⌋) := by
  have hgaps : ((s.zip s.tail).map fun p => p.2 - p.1).filter (fun d => decide (one_day < d))
      = (flagged_gap_indices s).map (consecutive_diff s) := by
    rw [diffs_eq_range_map, List.filter_map]
    rfl
  by_cases hl : s.length < 2
  · have hrange : s.length - 1 = 0 := by omega
    have hfl : flagged_gap_indices s = [] := by
      simp [flagged_gap_indices, hrange]
    refine ⟨?_, fun _ => ?_, fun hcon => absurd hfl hcon⟩
    · simp [analyze_gaps, hl, hfl]
    · simp [analyze_gaps, hl]
  · by_cases hg : ((s.zip s.tail).map fun p => p.2 - p.1).filter
        (fun d => decide (one_day < d)) = []
    · have hfl : flagged_gap_indices s = [] := by
        rw [hgaps] at hg
        exact List.map_eq_nil_iff.mp hg
      have hresult : analyze_gaps s = { count := 0, max_gap_days := 0, avg_gap_days := none } := by
        simp only [analyze_gaps, if_neg hl]
        rw [if_pos]
        rw [List.isEmpty_iff]
        exact hg
      refine ⟨?_, fun _ => hresult, fun hcon => absurd hfl hcon⟩
      rw [hresult, hfl]
      rfl
    · have hne : (flagged_gap_indices s) ≠ [] := by
        intro h
        apply hg
        rw [hgaps, h]
        rfl
      have hgne : ((s.zip s.tail).map fun p => p.2 - p.1).filter
          (fun d => decide (one_day < d)) ≠ [] := hg
      have hisEmpty : (((s.zip s.tail).map fun p => p.2 - p.1).filter
          (fun d => decide (one_day < d))).isEmpty = false := by
        rw [List.isEmpty_eq_false]
        exact hg
      have hresult : analyze_gaps s = {
          count := (((s.zip s.tail).map fun p => p.2 - p.1).filter
            (fun d => decide (one_day < d))).length,
          max_gap_days := ((((s.zip s.tail).map fun p => p.2 - p.1).filter
            (fun d => decide (one_day < d))).max?.getD 0) / one_day,
          avg_gap_days := some ⌊(((((s.zip s.tail).map fun p => p.2 - p.1).filter
              (fun d => decide (one_day < d))).sum : ℚ)
            / (((((s.zip s.tail).map fun p => p.2 - p.1).filter
              (fun d => decide (one_day < d))).length : ℕ) : ℚ)) / ((one_day : ℤ) : ℚ)⌋ } := by
        simp only [analyze_gaps, if_neg hl, hisEmpty, Bool.false_eq_true, if_false]
      refine ⟨?_, fun hcon => absurd hcon hne, fun _ => ⟨?_, ?_⟩⟩
      · rw [hresult, hgaps]
        simp
      · -- max characterization
        obtain ⟨m, hm⟩ : ∃ m, (((s.zip s.tail).map fun p => p.2 - p.1).filter
            (fun d => decide (one_day < d))).max? = some m := by
          cases hmax : (((s.zip s.tail).map fun p => p.2 - p.1).filter
              (fun d => decide (one_day < d))).max? with
          | none => exact absurd (List.max?_eq_none_iff.mp hmax) hg
          | some m => exact ⟨m, rfl⟩
        have hchar := (int_max?_eq_some_iff _ m).mp hm
        rw [hgaps] at hchar
        obtain ⟨hmem, hub⟩ := hchar
        obtain ⟨i, hi, hieq⟩ := List.mem_map.mp hmem
        refine ⟨i, hi, ?_, ?_⟩
        · rw [hresult]
          simp only [hm, Option.getD_some, hieq]
        · intro j hj
          rw [hieq]
          exact hub _ (List.mem_map.mpr ⟨j, hj, rfl⟩)
      · -- avg characterization
        rw [hresult]
        have hsum : ((((s.zip s.tail).map fun p => p.2 - p.1).filter
            (fun d => decide (one_day < d))).sum : ℚ)
            = ((flagged_gap_indices s).map fun i => ((consecutive_diff s i : ℤ) : ℚ)).sum := by
          rw [hgaps, Int.cast_list_sum, List.map_map]
          rfl
        have hlen2 : (((s.zip s.tail).map fun p => p.2 - p.1).filter
            (fun d => decide (one_day < d))).length = (flagged_gap_indices s).length := by
          rw [hgaps, List.length_map]
        rw [hsum, hlen2]

/-- C5: for a temporal field with at least one parseable timestamp, gap
analysis runs over the ascending-sorted timestamps and flags exactly the
consecutive differences strictly above one day, reporting their count,
the maximum gap in whole days, and the average (in whole days) over the
flagged gaps only; with no flagged difference (including the
single-timestamp case) the result is `{count: 0, max_gap_days: 0}`. -/
theorem C5_gap_analysis (parsed : List (Option ℤ)) (hne : parsed.filterMap id ≠ []) :
    (analyze_temporal_field parsed).gaps
      = some (analyze_gaps (sort_values (parsed.filterMap id))) ∧
    (analyze_gaps (sort_values (parsed.filterMap id))).count
      = (flagged_gap_indices (sort_values (parsed.filterMap id))).length ∧
    (flagged_gap_indices (sort_values (parsed.filterMap id)) = [] →
      analyze_gaps (sort_values (parsed.filterMap id))
        = { count := 0, max_gap_days := 0, avg_gap_days := none }) ∧
    (flagged_gap_indices (sort_values (parsed.filterMap id)) ≠ [] →
      (∃ i ∈ flagged_gap_indices (sort_values (parsed.filterMap id)),
        (analyze_gaps (sort_values (parsed.filterMap id))).max_gap_days
          = consecutive_diff (sort_values (parsed.filterMap id)) i / one_day ∧
        ∀ j ∈ flagged_gap_indices (sort_values (parsed.filterMap id)),
          consecutive_diff (sort_values (parsed.filterMap id)) j
            ≤ consecutive_diff (sort_values (parsed.filterMap id)) i) ∧
      (analyze_gaps (sort_values (parsed.filterMap id))).avg_gap_days = some
        ⌊(((flagged_gap_indices (sort_values (parsed.filterMap id))).map
              fun i => ((consecutive_diff (sort_values (parsed.filterMap id)) i : ℤ) : ℚ)).sum
            / ((flagged_gap_indices (sort_values (parsed.filterMap id))).length : ℚ))
          / ((one_day : ℤ) : ℚ)⌋) := by
  have hempty : (parsed.filterMap id).isEmpty = false := by
    rw [List.isEmpty_eq_false]; exact hne
  refine ⟨?_, analyze_gaps_spec _⟩
  simp [analyze_temporal_field, hempty]

/-- C5 witness: two timestamps three days apart. -/
theorem C5_gap_analysis_witness :
    (analyze_temporal_field [some 0, some (3 * one_day)]).gaps
      = some (analyze_gaps (sort_values (([some 0, some (3 * one_day)] : List (Option ℤ)).filterMap id))) ∧
    (analyze_gaps (sort_values (([some 0, some (3 * one_day)] : List (Option ℤ)).filterMap id))).count
      = (flagged_gap_indices (sort_values (([some 0, some (3 * one_day)] : List (Option ℤ)).filterMap id))).length ∧
    (flagged_gap_indices (sort_values (([some 0, some (3 * one_day)] : List (Option ℤ)).filterMap id)) = [] →
      analyze_gaps (sort_values (([some 0, some (3 * one_day)] : List (Option ℤ)).filterMap id))
        = { count := 0, max_gap_days := 0, avg_gap_days := none }) ∧
    (flagged_gap_indices (sort_values (([some 0, some (3 * one_day)] : List (Option ℤ)).filterMap id)) ≠ [] →
      (∃ i ∈ flagged_gap_indices (sort_values (([some 0, some (3 * one_day)] : List (Option ℤ)).filterMap id)),
        (analyze_gaps (sort_values (([some 0, some (3 * one_day)] : List (Option ℤ)).filterMap id))).max_gap_days
          = consecutive_diff (sort_values (([some 0, some (3 * one_day)] : List (Option ℤ)).filterMap id)) i / one_day ∧
        ∀ j ∈ flagged_gap_indices (sort_values (([some 0, some (3 * one_day)] : List (Option ℤ)).filterMap id)),
          consecutive_diff (sort_values (([some 0, some (3 * one_day)] : List (Option ℤ)).filterMap id)) j
            ≤ consecutive_diff (sort_values (([some 0, some (3 * one_day)] : List (Option ℤ)).filterMap id)) i) ∧
      (analyze_gaps (sort_values (([some 0, some (3 * one_day)] : List (Option ℤ)).filterMap id))).avg_gap_days = some
        ⌊(((flagged_gap_indices (sort_values (([some 0, some (3 * one_day)] : List (Option ℤ)).filterMap id))).map
              fun i => ((consecutive_diff (sort_values (([some 0, some (3 * one_day)] : List (Option ℤ)).filterMap id)) i : ℤ) : ℚ)).sum
            / ((flagged_gap_indices (sort_values (([some 0, some (3 * one_day)] : List (Option ℤ)).filterMap id))).length : ℚ))
          / ((one_day : ℤ) : ℚ)⌋) :=
  C5_gap_analysis [some 0, some (3 * one_day)] (by decide)

/-! ## C8: correlation map structure -/

open Classical in
/-- The correlation loop, characterised: the `pearson` entries are the
finite-coefficient upper pairs in loop order, and `significant` is the
`|r| > 0.7` subsequence of those entries with strength tags. -/
theorem corr_foldl_spec
    (PL : List ((String × List (Option ℚ)) × (String × List (Option ℚ))))
    (acc : CorrelationResult) :
    (PL.foldl corr_step acc).pearson = acc.pearson ++ PL.filterMap corr_entry ∧
    (PL.foldl corr_step acc).significant = acc.significant ++
      (((PL.filterMap corr_entry).filter fun e => decide (0.7 < |e.r|)).map
        fun e => { field1 := e.field1, field2 := e.field2, r := e.r,
                   strength := if 0.9 < |e.r| then "strong" else "moderate" }) := by
  induction PL generalizing acc with
  | nil => simp
  | cons pq PL ih =>
    rw [List.foldl_cons]
    obtain ⟨ihp, ihs⟩ := ih (corr_step acc pq)
    cases hpr : pearson_r pq.1.2 pq.2.2 with
    | none =>
      have hstep : corr_step acc pq = acc := by simp [corr_step, hpr]
      have hentry : corr_entry pq = none := by simp [corr_entry, hpr]
      exact ⟨by rw [ihp, hstep]; simp [List.filterMap_cons, hentry],
             by rw [ihs, hstep]; simp [List.filterMap_cons, hentry]⟩
    | some r =>
      have hentry : corr_entry pq
          = some { field1 := pq.1.1, field2 := pq.2.1, r := r } := by
        simp [corr_entry, hpr]
      constructor
      · rw [ihp]
        have hp : (corr_step acc pq).pearson
            = acc.pearson ++ [{ field1 := pq.1.1, field2 := pq.2.1, r := r }] := by
          simp [corr_step, hpr]
        rw [hp, List.filterMap_cons, hentry]
        simp
      · rw [ihs]
        by_cases hsig : (0.7:ℝ) < |r|
        · have hs : (corr_step acc pq).significant
              = acc.significant ++ [{ field1 := pq.1.1, field2 := pq.2.1, r := r,
                                      strength := if 0.9 < |r| then "strong"
                                        else "moderate" }] := by
            simp [corr_step, hpr, hsig]
          rw [hs, List.filterMap_cons, hentry, List.filter_cons]
          simp [hsig]
        · have hs : (corr_step acc pq).significant = acc.significant := by
            simp [corr_step, hpr, hsig]
          rw [hs, List.filterMap_cons, hentry, List.filter_cons]
          simp [hsig]

/-- Both components of an upper pair are list members. -/
theorem mem_upper_pairs {α : Type*} {l : List α} {pq : α × α}
    (h : pq ∈ upper_pairs l) : pq.1 ∈ l ∧ pq.2 ∈ l := by
  induction l with
  | nil => simp [upper_pairs] at h
  | cons x xs ih =>
    simp only [upper_pairs, List.mem_append, List.mem_map] at h
    rcases h with ⟨y, hy, rfl⟩ | h
    · exact ⟨List.mem_cons_self _ _, List.mem_cons_of_mem _ hy⟩
    · obtain ⟨h1, h2⟩ := ih h
      exact ⟨List.mem_cons_of_mem _ h1, List.mem_cons_of_mem _ h2⟩

/-- With distinct column names, no upper pair pairs a field with itself. -/
theorem upper_pairs_fst_ne {β : Type*} {l : List (String × β)} {pq : (String × β) × (String × β)}
    (hnodup : (l.map Prod.fst).Nodup) (h : pq ∈ upper_pairs l) : pq.1.1 ≠ pq.2.1 := by
  induction l with
  | nil => simp [upper_pairs] at h
  | cons x xs ih =>
    simp only [List.map_cons, List.nodup_cons] at hnodup
    obtain ⟨hx, hxs⟩ := hnodup
    simp only [upper_pairs, List.mem_append, List.mem_map] at h
    rcases h with ⟨y, hy, rfl⟩ | h
    · intro hcon
      exact hx (hcon ▸ List.mem_map.mpr ⟨y, hy, rfl⟩)
    · exact ih hxs h

/-- With distinct column names, the unordered name pairs of the upper
triangle are pairwise distinct. -/
theorem nodup_upper_pairs_names {β : Type*} {l : List (String × β)}
    (hnodup : (l.map Prod.fst).Nodup) :
    ((upper_pairs l).map fun pq => ({pq.1.1, pq.2.1} : Finset String)).Nodup := by
  induction l with
  | nil => simp [upper_pairs]
  | cons x xs ih =>
    simp only [List.map_cons, List.nodup_cons] at hnodup
    obtain ⟨hx, hxs⟩ := hnodup
    simp only [upper_pairs, List.map_append, List.map_map]
    rw [List.nodup_append]
    refine ⟨?_, ih hxs, ?_⟩
    · -- head block: pairs {x.1, y.1} for y ∈ xs
      refine List.Nodup.map_on ?_ ((List.Nodup.of_map _ hxs))
      intro y hy y' hy' heq
      simp only [Function.comp] at heq
      have hyx : y.1 ≠ x.1 := by
        intro hcon
        exact hx (hcon ▸ List.mem_map.mpr ⟨y, hy, rfl⟩)
      have hy'x : y'.1 ≠ x.1 := by
        intro hcon
        exact hx (hcon ▸ List.mem_map.mpr ⟨y', hy', rfl⟩)
      have hmem : y.1 ∈ ({x.1, y'.1} : Finset String) := by
        rw [← heq]
        simp
      have hyy' : y.1 = y'.1 := by
        rcases Finset.mem_insert.mp hmem with hcon | h2
        · exact absurd hcon hyx
        · simpa using h2
      exact List.inj_on_of_nodup_map hxs hy hy' hyy'
    · -- disjointness of the two blocks
      intro a ha hb
      simp only [List.mem_map, Function.comp] at ha
      obtain ⟨y, hy, rfl⟩ := ha
      simp only [List.mem_map] at hb
      obtain ⟨pq, hpq, heq⟩ := hb
      obtain ⟨h1, h2⟩ := mem_upper_pairs hpq
      have hxmem : x.1 ∈ ({pq.1.1, pq.2.1} : Finset String) := by
        rw [heq]
        simp
      rcases Finset.mem_insert.mp hxmem with hcon | hcon
      · exact hx (hcon ▸ List.mem_map.mpr ⟨pq.1, h1, rfl⟩)
      · have : x.1 = pq.2.1 := by simpa using hcon
        exact hx (this ▸ List.mem_map.mpr ⟨pq.2, h2, rfl⟩)

/-- Looking a key up in an association list with distinct keys finds the
associated entry. -/
theorem find_eq_of_nodup {β : Type*} {l : List (String × β)} {p : String × β}
    (hnodup : (l.map Prod.fst).Nodup) (hp : p ∈ l) :
    (l.find? fun q => q.1 == p.1) = some p := by
  induction l with
  | nil => simp at hp
  | cons a l ih =>
    simp only [List.map_cons, List.nodup_cons] at hnodup
    obtain ⟨ha, hl⟩ := hnodup
    rcases List.mem_cons.mp hp with rfl | hp'
    · simp [List.find?_cons]
    · have hne : (a.1 == p.1) = false := by
        rw [beq_eq_false_iff_ne]
        intro hcon
        exact ha (hcon ▸ List.mem_map.mpr ⟨p, hp', rfl⟩)
      rw [List.find?_cons, hne]
      exact ih hl hp'

/-- Inversion for a contributed `pearson` entry. -/
theorem corr_entry_inv {pq : (String × List (Option ℚ)) × (String × List (Option ℚ))}
    {e : PearsonEntry} (h : corr_entry pq = some e) :
    e.field1 = pq.1.1 ∧ e.field2 = pq.2.1 ∧ pearson_r pq.1.2 pq.2.2 = some e.r := by
  cases hpr : pearson_r pq.1.2 pq.2.2 with
  | none => simp [corr_entry, hpr] at h
  | some r =>
    simp only [corr_entry, hpr, Option.map_some', Option.some.injEq] at h
    subst h
    exact ⟨rfl, rfl, rfl⟩

/-- The unordered name pairs of the emitted entries form a sublist of
those of all upper pairs. -/
theorem filterMap_corr_names_sublist
    (PL : List ((String × List (Option ℚ)) × (String × List (Option ℚ)))) :
    List.Sublist
      ((PL.filterMap corr_entry).map fun e => ({e.field1, e.field2} : Finset String))
      (PL.map fun pq => ({pq.1.1, pq.2.1} : Finset String)) := by
  induction PL with
  | nil => simp
  | cons pq PL ih =>
    rw [List.filterMap_cons, List.map_cons]
    cases hpr : pearson_r pq.1.2 pq.2.2 with
    | none =>
      have hentry : corr_entry pq = none := by simp [corr_entry, hpr]
      rw [hentry]
      exact ih.cons _
    | some r =>
      have hentry : corr_entry pq
          = some { field1 := pq.1.1, field2 := pq.2.1, r := r } := by
        simp [corr_entry, hpr]
      rw [hentry, List.map_cons]
      exact ih.cons₂ _

/-- With distinct column names, `lookup_column` recovers the column. -/
theorem lookup_column_eq {fields : List (String × List (Option ℚ))}
    {p : String × List (Option ℚ)} (hnodup : (fields.map Prod.fst).Nodup)
    (hp : p ∈ fields) : lookup_column fields p.1 = p.2 := by
  rw [lookup_column, find_eq_of_nodup hnodup hp]
  rfl

open Classical in
/-- C8: with at least two distinctly named numeric columns, the pearson
map pairs each field only with a different one, contains each unordered
pair at most once (upper triangle), has a finite coefficient for every
emitted pair (NaN pairs omitted), and `significant` is exactly the
emitted pairs with `|r| > 0.7`, tagged `strong` iff `|r| > 0.9` and
`moderate` otherwise. -/
theorem C8_correlations (fields : List (String × List (Option ℚ)))
    (hnodup : (fields.map Prod.fst).Nodup) (hlen : 2 ≤ fields.length) :
    (∀ e ∈ (compute_correlations fields).pearson, e.field1 ≠ e.field2) ∧
    ((compute_correlations fields).pearson.map
        fun e => ({e.field1, e.field2} : Finset String)).Nodup ∧
    (∀ e ∈ (compute_correlations fields).pearson,
      pearson_r (lookup_column fields e.field1) (lookup_column fields e.field2)
        = some e.r) ∧
    (compute_correlations fields).significant
      = ((compute_correlations fields).pearson.filter fun e => decide (0.7 < |e.r|)).map
          fun e => { field1 := e.field1, field2 := e.field2, r := e.r,
                     strength := if 0.9 < |e.r| then "strong" else "moderate" } := by
  have hif : ¬ (fields.length < 2) := by omega
  have hres : compute_correlations fields
      = (upper_pairs fields).foldl corr_step { pearson := [], significant := [] } := by
    simp [compute_correlations, hif]
  obtain ⟨hp, hs⟩ := corr_foldl_spec (upper_pairs fields)
    { pearson := [], significant := [] }
  simp only [List.nil_append] at hp hs
  rw [hres, hp, hs]
  refine ⟨?_, ?_, ?_, rfl⟩
  · intro e he
    obtain ⟨pq, hpq, hsome⟩ := List.mem_filterMap.mp he
    obtain ⟨h1, h2, _⟩ := corr_entry_inv hsome
    rw [h1, h2]
    exact upper_pairs_fst_ne hnodup hpq
  · exact (nodup_upper_pairs_names hnodup).sublist (filterMap_corr_names_sublist _)
  · intro e he
    obtain ⟨pq, hpq, hsome⟩ := List.mem_filterMap.mp he
    obtain ⟨h1, h2, h3⟩ := corr_entry_inv hsome
    obtain ⟨hm1, hm2⟩ := mem_upper_pairs hpq
    rw [h1, h2, lookup_column_eq hnodup hm1, lookup_column_eq hnodup hm2]
    exact h3

open Classical in
/-- C8 witness: two perfectly correlated columns `a` and `b`. -/
theorem C8_correlations_witness :
    (∀ e ∈ (compute_correlations
        [("a", [some 1, some 2, some 3]), ("b", [some 2, some 4, some 6])]).pearson,
      e.field1 ≠ e.field2) ∧
    ((compute_correlations
        [("a", [some 1, some 2, some 3]), ("b", [some 2, some 4, some 6])]).pearson.map
        fun e => ({e.field1, e.field2} : Finset String)).Nodup ∧
    (∀ e ∈ (compute_correlations
        [("a", [some 1, some 2, some 3]), ("b", [some 2, some 4, some 6])]).pearson,
      pearson_r
        (lookup_column [("a", [some 1, some 2, some 3]), ("b", [some 2, some 4, some 6])]
          e.field1)
        (lookup_column [("a", [some 1, some 2, some 3]), ("b", [some 2, some 4, some 6])]
          e.field2) = some e.r) ∧
    (compute_correlations
        [("a", [some 1, some 2, some 3]), ("b", [some 2, some 4, some 6])]).significant
      = ((compute_correlations
            [("a", [some 1, some 2, some 3]), ("b", [some 2, some 4, some 6])]).pearson.filter
          fun e => decide (0.7 < |e.r|)).map
          fun e => { field1 := e.field1, field2 := e.field2, r := e.r,
                     strength := if 0.9 < |e.r| then "strong" else "moderate" } :=
  C8_correlations [("a", [some 1, some 2, some 3]), ("b", [some 2, some 4, some 6])]
    (by decide) (by decide)

end Journeyworks
